import Mathlib

/-!
Verification development for the FP-ASM documentation HTML generator
(`generate_html_docs.py`).  The generator is a chain of regex substitution
passes over strings plus a fixed-template page assembler and a sequential
orchestrator.  Strings are modelled as `List Char`; each regex pass of the
source is embedded as an executable function that mirrors the scanning
semantics of Python's `re.sub` (left-to-right, non-overlapping; lazy or
greedy as in the source pattern).  Scanning passes that may skip ahead use
an explicit fuel argument (instantiated with the string length) so that all
definitions compute by kernel reduction.
-/

/-- One backtick character (code point 96). -/
def btChar : Char := Char.ofNat 96

/-- Characters matched by Python's `\w` (modelled on the ASCII range, which
covers every language tag the repository uses). -/
def isWordChar (c : Char) : Bool := c.isAlphanum || c = '_'

/-- Characters stripped by Python's `str.strip()`. -/
def isPySpace (c : Char) : Bool :=
  c = ' ' || c = '\t' || c = '\n' || c = '\r' || c.toNat = 11 || c.toNat = 12

/-- Python `str.strip()`, leading part. -/
def pyStripL (l : List Char) : List Char := l.dropWhile isPySpace

/-- Python `str.strip()`, trailing part. -/
def pyStripR (l : List Char) : List Char := (l.reverse.dropWhile isPySpace).reverse

/-- Python `str.strip()`. -/
def pyStrip (l : List Char) : List Char := pyStripR (pyStripL l)

/-- Splitting on a separator character, Python `str.split(sep)` semantics
(keeps empty pieces, always returns at least one piece). -/
def splitOnChar (sep : Char) : List Char → List (List Char)
  | [] => [[]]
  | c :: cs =>
    if c = sep then [] :: splitOnChar sep cs
    else
      match splitOnChar sep cs with
      | [] => [[c]]
      | l :: ls => (c :: l) :: ls

/-- Lines of a string, Python `str.split('\n')` semantics. -/
def linesOf (s : List Char) : List (List Char) := splitOnChar '\n' s

/-- Rejoining lines with newlines, Python `'\n'.join` semantics. -/
def joinNl (ls : List (List Char)) : List Char := List.intercalate ['\n'] ls

/-- Applying a per-line rewrite to a whole string (the shape of every
`re.sub` call that uses `^...$` with `re.MULTILINE`). -/
def mapLines (f : List Char → List Char) (s : List Char) : List Char :=
  joinNl ((linesOf s).map f)

/-- Whether `pat` occurs as a contiguous substring. -/
def hasSubstr (pat : List Char) : List Char → Bool
  | [] => pat.isPrefixOf []
  | c :: cs => pat.isPrefixOf (c :: cs) || hasSubstr pat cs

/-- Splitting at the first occurrence of `pat`: returns the text before the
occurrence and the text after it. -/
def splitAtSub (pat : List Char) : List Char → Option (List Char × List Char)
  | [] => if pat.isPrefixOf ([] : List Char) then some ([], []) else none
  | c :: cs =>
    if pat.isPrefixOf (c :: cs) then some ([], (c :: cs).drop pat.length)
    else
      match splitAtSub pat cs with
      | some (a, b) => some (c :: a, b)
      | none => none

/-- Splitting at the last occurrence of `pat`. -/
def splitAtLastSub (pat : List Char) : List Char → Option (List Char × List Char)
  | [] => none
  | c :: cs =>
    match splitAtLastSub pat cs with
    | some (a, b) => some (c :: a, b)
    | none =>
      if pat.isPrefixOf (c :: cs) then some ([], (c :: cs).drop pat.length)
      else none

/-- The text up to the first newline together with the remainder after that
newline; `none` when the string has no newline. -/
def takeLine : List Char → Option (List Char × List Char)
  | [] => none
  | c :: cs =>
    if c = '\n' then some ([], cs)
    else
      match takeLine cs with
      | some (l, r) => some (c :: l, r)
      | none => none

/-- Appending a trailer to the last line of a line list. -/
def wrapEnd (b : List Char) : List (List Char) → List (List Char)
  | [] => [b]
  | [l] => [l ++ b]
  | l :: l' :: ls => l :: wrapEnd b (l' :: ls)

/-- Prepending a header to the first line and appending a trailer to the last
line of a line list. -/
def wrapFL (a b : List Char) : List (List Char) → List (List Char)
  | [] => [a ++ b]
  | [l] => [a ++ (l ++ b)]
  | l :: l' :: ls => (a ++ l) :: wrapEnd b (l' :: ls)

/-! ### Converter passes (source lines 382-473) -/

/-- Header pattern `^#... (.+)$`: the line starts with the given hash prefix
and has a nonempty remainder. -/
def headerMatches (hashes : List Char) (l : List Char) : Bool :=
  hashes.isPrefixOf l && !(l.drop hashes.length).isEmpty

/-- One header line rewrite, `re.sub(r'^# (.+)$', r'<h1>\1</h1>', ...)` and
its `##`/`###`/`####` analogues. -/
def headerLine (hashes openT closeT : List Char) (l : List Char) : List Char :=
  if headerMatches hashes l then openT ++ l.drop hashes.length ++ closeT else l

/-- Pass 1a: `# ` headers (source line 387). -/
def h1Pass (s : List Char) : List Char :=
  mapLines (headerLine "# ".data "<h1>".data "</h1>".data) s

/-- Pass 1b: `## ` headers (source line 388). -/
def h2Pass (s : List Char) : List Char :=
  mapLines (headerLine "## ".data "<h2>".data "</h2>".data) s

/-- Pass 1c: `### ` headers (source line 389). -/
def h3Pass (s : List Char) : List Char :=
  mapLines (headerLine "### ".data "<h3>".data "</h3>".data) s

/-- Pass 1d: `#### ` headers (source line 390). -/
def h4Pass (s : List Char) : List Char :=
  mapLines (headerLine "#### ".data "<h4>".data "</h4>".data) s

/-- Scanner for pass 2, `re.sub(r'```(\w+)?\n(.*?)```', r'<pre><code>\2</code></pre>', html, flags=re.DOTALL)`.
At a position starting with a fence the optional language tag is the maximal
word-character run; a newline must follow; the lazy body runs to the first
closing fence.  On failure the scan advances one character. -/
def codeBlockGo : Nat → List Char → List Char
  | 0, l => l
  | _ + 1, [] => []
  | n + 1, c :: cs =>
    if ("```".data).isPrefixOf (c :: cs) then
      let afterFence := (c :: cs).drop 3
      let tag := afterFence.takeWhile isWordChar
      match afterFence.drop tag.length with
      | '\n' :: body =>
        match splitAtSub "```".data body with
        | some (content, rest) =>
          "<pre><code>".data ++ content ++ "</code></pre>".data ++ codeBlockGo n rest
        | none => c :: codeBlockGo n cs
      | _ => c :: codeBlockGo n cs
    else c :: codeBlockGo n cs

/-- Pass 2: fenced code blocks (source line 393). -/
def codeBlocksPass (s : List Char) : List Char := codeBlockGo s.length s

/-- Scanner for pass 3, `` re.sub(r'`([^`]+)`', r'<code>\1</code>', ...) ``:
a backtick, a nonempty run of non-backticks, a backtick. -/
def inlineCodeGo : Nat → List Char → List Char
  | 0, l => l
  | _ + 1, [] => []
  | n + 1, c :: cs =>
    if c = btChar then
      let content := cs.takeWhile (fun d => !(d = btChar))
      match cs.drop content.length, content with
      | _ :: rest, _ :: _ => "<code>".data ++ content ++ "</code>".data ++ inlineCodeGo n rest
      | _, _ => c :: inlineCodeGo n cs
    else c :: inlineCodeGo n cs

/-- Pass 3: inline code (source line 396). -/
def inlineCodePass (s : List Char) : List Char := inlineCodeGo s.length s

/-- Lazy body of `\*\*(.+?)\*\*`: the shortest nonempty newline-free run
followed by `**`, returned with the remainder after the closing `**`. -/
def boldClose : List Char → Option (List Char × List Char)
  | [] => none
  | c :: cs =>
    if c = '\n' then none
    else if ("**".data).isPrefixOf cs then some ([c], cs.drop 2)
    else
      match boldClose cs with
      | some (t, r) => some (c :: t, r)
      | none => none

/-- Scanner for pass 4, `re.sub(r'\*\*(.+?)\*\*', r'<strong>\1</strong>', ...)`. -/
def boldGo : Nat → List Char → List Char
  | 0, l => l
  | _ + 1, [] => []
  | n + 1, c :: cs =>
    if ("**".data).isPrefixOf (c :: cs) then
      match boldClose cs.tail with
      | some (content, rest) =>
        "<strong>".data ++ content ++ "</strong>".data ++ boldGo n rest
      | none => c :: boldGo n cs
    else c :: boldGo n cs

/-- Pass 4: bold (source line 399). -/
def boldPass (s : List Char) : List Char := boldGo s.length s

/-- Lazy body of `\*(.+?)\*`: the shortest nonempty newline-free run
followed by `*`. -/
def italClose : List Char → Option (List Char × List Char)
  | [] => none
  | c :: cs =>
    if c = '\n' then none
    else
      match cs with
      | '*' :: r => some ([c], r)
      | _ =>
        match italClose cs with
        | some (t, r) => some (c :: t, r)
        | none => none

/-- Scanner for pass 5, `re.sub(r'\*(.+?)\*', r'<em>\1</em>', ...)`. -/
def italGo : Nat → List Char → List Char
  | 0, l => l
  | _ + 1, [] => []
  | n + 1, c :: cs =>
    if c = '*' then
      match italClose cs with
      | some (content, rest) => "<em>".data ++ content ++ "</em>".data ++ italGo n rest
      | none => c :: italGo n cs
    else c :: italGo n cs

/-- Pass 5: italics (source line 402). -/
def italPass (s : List Char) : List Char := italGo s.length s

/-- Scanner for pass 6, `re.sub(r'\[([^\]]+)\]\(([^\)]+)\)', r'<a href="\2">\1</a>', ...)`. -/
def linkGo : Nat → List Char → List Char
  | 0, l => l
  | _ + 1, [] => []
  | n + 1, c :: cs =>
    if c = '[' then
      let label := cs.takeWhile (fun d => !(d = ']'))
      match cs.drop label.length, label with
      | _ :: afterLabel, _ :: _ =>
        match afterLabel with
        | '(' :: cs2 =>
          let url := cs2.takeWhile (fun d => !(d = ')'))
          match cs2.drop url.length, url with
          | _ :: rest, _ :: _ =>
            "<a href=\"".data ++ url ++ "\">".data ++ label ++ "</a>".data ++ linkGo n rest
          | _, _ => c :: linkGo n cs
        | _ => c :: linkGo n cs
      | _, _ => c :: linkGo n cs
    else c :: linkGo n cs

/-- Pass 6: links (source line 405). -/
def linksPass (s : List Char) : List Char := linkGo s.length s

/-- Horizontal-rule pattern `^---+$`: a line of three or more hyphens. -/
def hrMatches (l : List Char) : Bool := l.length ≥ 3 && l.all (fun c => c = '-')

/-- Pass 7: horizontal rules (source line 408). -/
def hrPass (s : List Char) : List Char :=
  mapLines (fun l => if hrMatches l then "<hr>".data else l) s

/-- Unordered-list-item pattern `^\- (.+)$`. -/
def liMatches (l : List Char) : Bool :=
  ("- ".data).isPrefixOf l && !(l.drop 2).isEmpty

/-- Pass 8a: unordered list items (source line 411). -/
def liPass (s : List Char) : List Char :=
  mapLines (fun l => if liMatches l then "<li>".data ++ l.drop 2 ++ "</li>".data else l) s

/-- Pass 8b, `re.sub(r'(<li>.*</li>)', r'<ul>\1</ul>', html, flags=re.DOTALL)`:
with a greedy dot-all body the single match runs from the first `<li>` of the
document to the last `</li>` after it, and the scan after the replacement
finds no further match. -/
def ulWrapPass (s : List Char) : List Char :=
  match splitAtSub "<li>".data s with
  | none => s
  | some (a, afterOpen) =>
    match splitAtLastSub "</li>".data afterOpen with
    | none => s
    | some (mid, b) =>
      a ++ "<ul>".data ++ "<li>".data ++ mid ++ "</li>".data ++ "</ul>".data ++ b

/-- Ordered-list-item pattern `^\d+\. (.+)$`. -/
def olMatches (l : List Char) : Bool :=
  let ds := l.takeWhile Char.isDigit
  !ds.isEmpty && (". ".data).isPrefixOf (l.drop ds.length) &&
    !(l.drop (ds.length + 2)).isEmpty

/-- Pass 9: numbered list items (source line 415). -/
def olPass (s : List Char) : List Char :=
  mapLines
    (fun l =>
      if olMatches l then
        "<li>".data ++ l.drop ((l.takeWhile Char.isDigit).length + 2) ++ "</li>".data
      else l)
    s

/-- Table row line `\|[^\n]+\|` followed by `\n`: the line starts and ends
with a pipe and has a nonempty interior. -/
def isRowLine (l : List Char) : Bool :=
  l.head? = some '|' && l.getLast? = some '|' && decide (l.length ≥ 3)

/-- Table separator line `\|[-:\| ]+\|`: starts and ends with a pipe, has a
nonempty interior, and every character is a hyphen, colon, pipe or space. -/
def isSepLine (l : List Char) : Bool :=
  isRowLine l && l.all (fun c => c = '-' || c = ':' || c = '|' || c = ' ')

/-- The greedy `(\|[^\n]+\|\n)+` tail: maximal run of newline-terminated row
lines. -/
def takeDataLines : Nat → List Char → List (List Char) × List Char
  | 0, s => ([], s)
  | n + 1, s =>
    match takeLine s with
    | some (l, rest) =>
      if isRowLine l then
        match takeDataLines n rest with
        | (ls, r) => (l :: ls, r)
      else ([], s)
    | none => ([], s)

/-- Attempting the table pattern at the current position: a row line, a
separator line, then one or more data lines.  Returns the matched text and
the remainder. -/
def tryTable (s : List Char) : Option (List Char × List Char) :=
  (takeLine s).bind (fun p1 =>
    if isRowLine p1.1 then
      (takeLine p1.2).bind (fun p2 =>
        if isSepLine p2.1 then
          match takeDataLines p2.2.length p2.2 with
          | ([], _) => none
          | (d :: ds, rest) =>
            some (p1.1 ++ '\n' :: p2.1 ++ '\n' :: (d :: ds).flatMap (fun l => l ++ ['\n']), rest)
        else none)
    else none)

/-- The `convert_table` callback (source lines 418-442): split the matched
block into lines, emit one header row from line 0, skip line 1, and emit one
data row per remaining nonblank line, each cell stripped. -/
def convert_table (s : List Char) : List Char :=
  let lines := linesOf s
  if lines.length < 3 then s
  else
    let headers := ((splitOnChar '|' (lines.headI)).drop 1).dropLast.map pyStrip
    let headerRow := "<tr>".data ++
      headers.flatMap (fun h => "<th>".data ++ h ++ "</th>".data) ++ "</tr>\n".data
    let dataRows := (lines.drop 2).flatMap
      (fun l =>
        if !(pyStrip l).isEmpty then
          "<tr>".data ++
            (((splitOnChar '|' l).drop 1).dropLast.map pyStrip).flatMap
              (fun c => "<td>".data ++ c ++ "</td>".data) ++ "</tr>\n".data
        else [])
    "<table>\n".data ++ headerRow ++ dataRows ++ "</table>".data

/-- Scanner for pass 10 (source line 444): try the table pattern at each
position, rewriting matches through `convert_table`. -/
def tableGo : Nat → List Char → List Char
  | 0, l => l
  | _ + 1, [] => []
  | n + 1, c :: cs =>
    match tryTable (c :: cs) with
    | some (matched, rest) => convert_table matched ++ tableGo n rest
    | none => c :: tableGo n cs

/-- Pass 10: tables. -/
def tablesPass (s : List Char) : List Char := tableGo s.length s

/-- Block-opening prefixes tested by the paragraph pass (source line 454). -/
def blockOpenPrefixes : List (List Char) :=
  ["<h".data, "<pre>".data, "<ul>".data, "<ol>".data, "<table>".data, "<hr>".data,
    "<li>".data]

/-- Block-closing prefixes tested by the paragraph pass (source line 457). -/
def blockClosePrefixes : List (List Char) :=
  ["</pre>".data, "</ul>".data, "</ol>".data, "</table>".data]

/-- Whether the stripped line starts with any of the given prefixes
(Python `str.startswith(tuple)`). -/
def startsWithAny (ps : List (List Char)) (l : List Char) : Bool :=
  ps.any (fun p => p.isPrefixOf l)

/-- One step of the paragraph loop (source lines 451-465): returns the
emitted line and the updated `in_block` flag. -/
def paraStep (inBlock : Bool) (line : List Char) : List Char × Bool :=
  let stripped := pyStrip line
  if startsWithAny blockOpenPrefixes stripped then (line, true)
  else if startsWithAny blockClosePrefixes stripped then (line, false)
  else if stripped.isEmpty then (line, inBlock)
  else if !inBlock && !stripped.isEmpty && !(("<".data).isPrefixOf stripped) then
    ("<p>".data ++ line ++ "</p>".data, inBlock)
  else (line, inBlock)

/-- The paragraph loop over a list of lines. -/
def paraGo : Bool → List (List Char) → List (List Char)
  | _, [] => []
  | inBlock, l :: ls =>
    match paraStep inBlock l with
    | (l', inBlock') => l' :: paraGo inBlock' ls

/-- Pass 11: paragraph wrapping (source lines 447-467). -/
def paragraphsPass (s : List Char) : List Char := joinNl (paraGo false (linesOf s))

/-- The emoji character classes of source line 470. -/
def isEmojiChar (c : Char) : Bool :=
  (0x1F300 ≤ c.toNat && c.toNat ≤ 0x1F9FF) ||
  (0x2600 ≤ c.toNat && c.toNat ≤ 0x26FF) ||
  (0x2700 ≤ c.toNat && c.toNat ≤ 0x27BF)

/-- Pass 12: wrap each emoji character in a styling span (source line 471). -/
def emojiPass (s : List Char) : List Char :=
  s.flatMap
    (fun c =>
      if isEmojiChar c then "<span class=\"emoji\">".data ++ [c] ++ "</span>".data
      else [c])

/-- The full converter on character lists: the twelve passes in source
order. -/
def convertL (s : List Char) : List Char :=
  emojiPass (paragraphsPass (tablesPass (olPass (ulWrapPass (liPass (hrPass
    (linksPass (italPass (boldPass (inlineCodePass (codeBlocksPass
      (h4Pass (h3Pass (h2Pass (h1Pass s)))))))))))))))

/-- `convert_markdown_to_html` (source lines 382-473). -/
def convert_markdown_to_html (s : String) : String := String.mk (convertL s.data)

/-- Substring containment at the `String` level. -/
def strContains (s pat : String) : Bool := hasSubstr pat.data s.data
/-! ### Page template and assembler (source lines 19-380, 593-711) -/

/-- Literal text of `HTML_TEMPLATE` between format fields (segment 0). -/
def tplSeg0 : List Char :=
  ("<!DOCTYPE html>\n<html lang=\"en\">\n<head>\n    <meta charset=\"UTF-8\">\n    <meta name=\"viewport\" content=\"width=device-width, initial-scale=1.0\">\n    <title>" : String).data

/-- Literal text of `HTML_TEMPLATE` between format fields (segment 1). -/
def tplSeg1 : List Char :=
  (" - FP-ASM Library</title>\n    <style>\n        * \x7b\n            margin: 0;\n            padding: 0;\n            box-sizing: border-box;\n        \x7d\n\n        body \x7b\n            font-family: -apple-system, BlinkMacSystemFont, \x27Segoe UI\x27, Roboto, Oxygen, Ubuntu, Cantarell, sans-serif;\n            line-height: 1.6;\n            color: #333;\n            background: #f5f5f5;\n        \x7d\n\n        .container \x7b\n            display: flex;\n            max-width: 1400px;\n            margin: 0 auto;\n            background: white;\n            min-height: 100vh;\n        \x7d\n\n        /* Sidebar Navigation */\n        .sidebar \x7b\n            width: 280px;\n            background: #2c3e50;\n            color: white;\n            padding: 20px;\n            position: sticky;\n            top: 0;\n            height: 100vh;\n            overflow-y: auto;\n        \x7d\n\n        .sidebar h2 \x7b\n            color: #3498db;\n            margin-bottom: 20px;\n            font-size: 1.4em;\n            border-bottom: 2px solid #3498db;\n            padding-bottom: 10px;\n        \x7d\n\n        .sidebar nav ul \x7b\n            list-style: none;\n        \x7d\n\n        .sidebar nav li \x7b\n            margin: 8px 0;\n        \x7d\n\n        .sidebar nav a \x7b\n            color: #ecf0f1;\n            text-decoration: none;\n            display: block;\n            padding: 8px 12px;\n            border-radius: 4px;\n            transition: all 0.3s;\n        \x7d\n\n        .sidebar nav a:hover \x7b\n            background: #34495e;\n            color: #3498db;\n            transform: translateX(5px);\n        \x7d\n\n        .sidebar nav a.active \x7b\n            background: #3498db;\n            color: white;\n        \x7d\n\n        .sidebar .badge \x7b\n            display: inline-block;\n            background: #27ae60;\n            color: white;\n            font-size: 0.7em;\n            padding: 2px 6px;\n            border-radius: 3px;\n            margin-left: 8px;\n        \x7d\n\n        /* Main Content */\n        .content \x7b\n            flex: 1;\n            padding: 40px 60px;\n            overflow-y: auto;\n        \x7d\n\n        .content h1 \x7b\n            color: #2c3e50;\n            font-size: 2.5em;\n            margin-bottom: 20px;\n            border-bottom: 3px solid #3498db;\n            padding-bottom: 10px;\n        \x7d\n\n        .content h2 \x7b\n            color: #34495e;\n            font-size: 2em;\n            margin-top: 40px;\n            margin-bottom: 15px;\n            border-left: 4px solid #3498db;\n            padding-left: 15px;\n        \x7d\n\n        .content h3 \x7b\n            color: #34495e;\n            font-size: 1.5em;\n            margin-top: 30px;\n            margin-bottom: 10px;\n        \x7d\n\n        .content h4 \x7b\n            color: #7f8c8d;\n            font-size: 1.2em;\n            margin-top: 20px;\n            margin-bottom: 10px;\n        \x7d\n\n        .content p \x7b\n            margin: 15px 0;\n            line-height: 1.8;\n        \x7d\n\n        .content ul, .content ol \x7b\n            margin: 15px 0 15px 30px;\n        \x7d\n\n        .content li \x7b\n            margin: 8px 0;\n        \x7d\n\n        /* Code Blocks */\n        .content pre \x7b\n            background: #2c3e50;\n            color: #ecf0f1;\n            padding: 20px;\n            border-radius: 6px;\n            overflow-x: auto;\n            margin: 20px 0;\n            border-left: 4px solid #3498db;\n        \x7d\n\n        .content code \x7b\n            background: #ecf0f1;\n            padding: 2px 6px;\n            border-radius: 3px;\n            font-family: \x27Courier New\x27, monospace;\n            font-size: 0.9em;\n            color: #c7254e;\n        \x7d\n\n        .content pre code \x7b\n            background: transparent;\n            padding: 0;\n            color: #ecf0f1;\n        \x7d\n\n        /* Tables */\n        .content table \x7b\n            width: 100%;\n            border-collapse: collapse;\n            margin: 20px 0;\n            box-shadow: 0 2px 4px rgba(0,0,0,0.1);\n        \x7d\n\n        .content th \x7b\n            background: #3498db;\n            color: white;\n            padding: 12px;\n            text-align: left;\n            font-weight: bold;\n        \x7d\n\n        .content td \x7b\n            padding: 12px;\n            border-bottom: 1px solid #ecf0f1;\n        \x7d\n\n        .content tr:hover \x7b\n            background: #f8f9fa;\n        \x7d\n\n        /* Badges */\n        .badge-green \x7b\n            background: #27ae60;\n            color: white;\n            padding: 4px 10px;\n            border-radius: 4px;\n            font-size: 0.85em;\n            font-weight: bold;\n        \x7d\n\n        .badge-blue \x7b\n            background: #3498db;\n            color: white;\n            padding: 4px 10px;\n            border-radius: 4px;\n            font-size: 0.85em;\n            font-weight: bold;\n        \x7d\n\n        .badge-orange \x7b\n            background: #e67e22;\n            color: white;\n            padding: 4px 10px;\n            border-radius: 4px;\n            font-size: 0.85em;\n            font-weight: bold;\n        \x7d\n\n        /* Blockquotes */\n        .content blockquote \x7b\n            border-left: 4px solid #3498db;\n            padding: 15px 20px;\n            background: #ecf0f1;\n            margin: 20px 0;\n            font-style: italic;\n        \x7d\n\n        /* Links */\n        .content a \x7b\n            color: #3498db;\n            text-decoration: none;\n            border-bottom: 1px solid transparent;\n            transition: border-color 0.3s;\n        \x7d\n\n        .content a:hover \x7b\n            border-bottom-color: #3498db;\n        \x7d\n\n        /* Horizontal Rules */\n        .content hr \x7b\n            border: none;\n            border-top: 2px solid #ecf0f1;\n            margin: 40px 0;\n        \x7d\n\n        /* Emoji support */\n        .emoji \x7b\n            font-size: 1.2em;\n        \x7d\n\n        /* Top banner */\n        .banner \x7b\n            background: linear-gradient(135deg, #667eea 0%, #764ba2 100%);\n            color: white;\n            padding: 20px 60px;\n            box-shadow: 0 2px 10px rgba(0,0,0,0.1);\n        \x7d\n\n        .banner h1 \x7b\n            color: white;\n            border: none;\n            margin: 0;\n            font-size: 1.8em;\n        \x7d\n\n        .banner p \x7b\n            margin: 5px 0 0 0;\n            opacity: 0.9;\n        \x7d\n\n        /* Function signature boxes */\n        .signature \x7b\n            background: #f8f9fa;\n            border: 2px solid #3498db;\n            border-radius: 6px;\n            padding: 15px;\n            margin: 20px 0;\n            font-family: \x27Courier New\x27, monospace;\n        \x7d\n\n        /* Performance badges */\n        .perf-badge \x7b\n            display: inline-block;\n            padding: 6px 12px;\n            border-radius: 20px;\n            font-size: 0.85em;\n            font-weight: bold;\n            margin: 5px 5px 5px 0;\n        \x7d\n\n        .perf-excellent \x7b background: #27ae60; color: white; \x7d\n        .perf-good \x7b background: #2ecc71; color: white; \x7d\n        .perf-okay \x7b background: #f39c12; color: white; \x7d\n        .perf-competitive \x7b background: #3498db; color: white; \x7d\n\n        /* Scrollbar styling */\n        ::-webkit-scrollbar \x7b\n            width: 10px;\n        \x7d\n\n        ::-webkit-scrollbar-track \x7b\n            background: #f1f1f1;\n        \x7d\n\n        ::-webkit-scrollbar-thumb \x7b\n            background: #888;\n            border-radius: 5px;\n        \x7d\n\n        ::-webkit-scrollbar-thumb:hover \x7b\n            background: #555;\n        \x7d\n\n        @media (max-width: 768px) \x7b\n            .container \x7b\n                flex-direction: column;\n            \x7d\n\n            .sidebar \x7b\n                width: 100%;\n                height: auto;\n                position: relative;\n            \x7d\n\n            .content \x7b\n                padding: 20px;\n            \x7d\n\n            .banner \x7b\n                padding: 15px 20px;\n            \x7d\n        \x7d\n    </style>\n</head>\n<body>\n    <div class=\"banner\">\n        <h1>🚀 FP-ASM Library Documentation</h1>\n        <p>Complete Functional Programming Toolkit for C • 100% FP Coverage • 36 Functions • Production Ready</p>\n    </div>\n    <div class=\"container\">\n        <aside class=\"sidebar\">\n            <h2>📚 Documentation</h2>\n            <nav>\n                <ul>\n                    <li><a href=\"index.html\" class=\"" : String).data

/-- Literal text of `HTML_TEMPLATE` between format fields (segment 2). -/
def tplSeg2 : List Char :=
  ("\">🏠 Home</a></li>\n                    <li><a href=\"README.html\" class=\"" : String).data

/-- Literal text of `HTML_TEMPLATE` between format fields (segment 3). -/
def tplSeg3 : List Char :=
  ("\">📖 Overview</a></li>\n                    <li><a href=\"QUICK_START.html\" class=\"" : String).data

/-- Literal text of `HTML_TEMPLATE` between format fields (segment 4). -/
def tplSeg4 : List Char :=
  ("\">🚀 Quick Start</a></li>\n                    <li><a href=\"API_REFERENCE.html\" class=\"" : String).data

/-- Literal text of `HTML_TEMPLATE` between format fields (segment 5). -/
def tplSeg5 : List Char :=
  ("\">📘 API Reference <span class=\"badge\">36 funcs</span></a></li>\n                    <li><a href=\"COMPLETE_LIBRARY_REPORT.html\" class=\"" : String).data

/-- Literal text of `HTML_TEMPLATE` between format fields (segment 6). -/
def tplSeg6 : List Char :=
  ("\">🎉 Journey Report</a></li>\n                    <li><a href=\"TIER1_COMPLETENESS_REPORT.html\" class=\"" : String).data

/-- Literal text of `HTML_TEMPLATE` between format fields (segment 7). -/
def tplSeg7 : List Char :=
  ("\">📊 TIER 1 Report</a></li>\n                    <li><a href=\"TIER2_COMPLETENESS_REPORT.html\" class=\"" : String).data

/-- Literal text of `HTML_TEMPLATE` between format fields (segment 8). -/
def tplSeg8 : List Char :=
  ("\">📊 TIER 2 Report</a></li>\n                    <li><a href=\"TIER3_COMPLETENESS_REPORT.html\" class=\"" : String).data

/-- Literal text of `HTML_TEMPLATE` between format fields (segment 9). -/
def tplSeg9 : List Char :=
  ("\">📊 TIER 3 Report</a></li>\n                    <li><a href=\"ACHIEVEMENT_SUMMARY.html\" class=\"" : String).data

/-- Literal text of `HTML_TEMPLATE` between format fields (segment 10). -/
def tplSeg10 : List Char :=
  ("\">🏆 Achievement</a></li>\n                </ul>\n            </nav>\n        </aside>\n        <main class=\"content\">\n            " : String).data

/-- Literal text of `HTML_TEMPLATE` between format fields (segment 11). -/
def tplSeg11 : List Char :=
  ("\n        </main>\n    </div>\n</body>\n</html>\n" : String).data

/-- The hand-written landing-page fragment of `create_index_page` (source lines 477-590). -/
def create_index_page : List Char :=
  ("\n<h1>Welcome to FP-ASM Library Documentation</h1>\n\n<p>A complete, production-ready functional programming toolkit for C with hand-optimized x64 assembly and AVX2 SIMD acceleration.</p>\n\n<h2>🎯 Quick Navigation</h2>\n\n<div style=\"display: grid; grid-template-columns: repeat(auto-fit, minmax(300px, 1fr)); gap: 20px; margin: 30px 0;\">\n    <div style=\"padding: 20px; background: #ecf0f1; border-radius: 8px; border-left: 4px solid #3498db;\">\n        <h3>📖 Getting Started</h3>\n        <p>New to FP-ASM? Start here!</p>\n        <a href=\"README.html\">Read the Overview</a> •\n        <a href=\"QUICK_START.html\">Quick Start Tutorial</a>\n    </div>\n\n    <div style=\"padding: 20px; background: #ecf0f1; border-radius: 8px; border-left: 4px solid #27ae60;\">\n        <h3>📘 API Documentation</h3>\n        <p>Complete reference for all 36 functions</p>\n        <a href=\"API_REFERENCE.html\">Browse API Reference</a>\n    </div>\n\n    <div style=\"padding: 20px; background: #ecf0f1; border-radius: 8px; border-left: 4px solid #e67e22;\">\n        <h3>🎉 Achievement Reports</h3>\n        <p>See the journey to 100% completion</p>\n        <a href=\"COMPLETE_LIBRARY_REPORT.html\">Journey Report</a> •\n        <a href=\"ACHIEVEMENT_SUMMARY.html\">Final Summary</a>\n    </div>\n</div>\n\n<h2>📊 Library Statistics</h2>\n\n<table>\n    <tr>\n        <th>Metric</th>\n        <th>Value</th>\n    </tr>\n    <tr>\n        <td><strong>Total Functions</strong></td>\n        <td><span class=\"badge-green\">36</span></td>\n    </tr>\n    <tr>\n        <td><strong>Assembly Modules</strong></td>\n        <td><span class=\"badge-blue\">10</span></td>\n    </tr>\n    <tr>\n        <td><strong>FP Completeness</strong></td>\n        <td><span class=\"badge-green\">100%</span></td>\n    </tr>\n    <tr>\n        <td><strong>Performance Range</strong></td>\n        <td><span class=\"badge-orange\">1.0-4.0x vs GCC -O3</span></td>\n    </tr>\n    <tr>\n        <td><strong>Platform</strong></td>\n        <td>Windows x64 • AVX2</td>\n    </tr>\n    <tr>\n        <td><strong>Status</strong></td>\n        <td><span class=\"badge-green\">Production Ready</span></td>\n    </tr>\n</table>\n\n<h2>🚀 Quick Example</h2>\n\n<pre><code>#include &lt;stdio.h&gt;\n#include \"fp_core.h\"\n\nint main() \x7b\n    // Sum an array (1.5-1.8x faster than C)\n    int64_t numbers[] = \x7b1, 2, 3, 4, 5\x7d;\n    int64_t sum = fp_reduce_add_i64(numbers, 5);\n    printf(\"Sum: %lld\\\\n\", sum);  // Output: 15\n\n    // Find median\n    double data[] = \x7b25.3, 19.2, 28.5, 21.8\x7d;\n    fp_sort_f64(data, 4);\n    printf(\"Median: %.1f\\\\n\", data[2]);\n\n    return 0;\n\x7d\n</code></pre>\n\n<p><strong>Compile:</strong> <code>gcc your_program.c fp_core_*.o -o your_program.exe</code></p>\n\n<h2>🎓 What Makes FP-ASM Special?</h2>\n\n<ul>\n    <li><strong>✅ 100% Complete</strong> - All standard FP operations from Haskell/ML/Lisp</li>\n    <li><strong>⚡ High Performance</strong> - 1.0-4.0x faster than GCC -O3</li>\n    <li><strong>🔧 Production Ready</strong> - Tested, documented, ABI-compliant</li>\n    <li><strong>📦 Zero Dependencies</strong> - Just include and link</li>\n    <li><strong>🎯 Type Safe</strong> - Separate i64 and f64 variants</li>\n    <li><strong>📚 Well Documented</strong> - 170+ KB of guides and references</li>\n</ul>\n\n<h2>📖 Documentation Overview</h2>\n\n<ul>\n    <li><strong><a href=\"README.html\">README</a></strong> - Main overview and quick examples</li>\n    <li><strong><a href=\"QUICK_START.html\">Quick Start</a></strong> - Tutorial from basics to advanced</li>\n    <li><strong><a href=\"API_REFERENCE.html\">API Reference</a></strong> - Complete docs for all 36 functions</li>\n    <li><strong><a href=\"COMPLETE_LIBRARY_REPORT.html\">Journey Report</a></strong> - 40% → 100% story</li>\n    <li><strong><a href=\"TIER1_COMPLETENESS_REPORT.html\">TIER 1 Report</a></strong> - List operations (scans, filter, partition)</li>\n    <li><strong><a href=\"TIER2_COMPLETENESS_REPORT.html\">TIER 2 Report</a></strong> - Sorting & sets details</li>\n    <li><strong><a href=\"TIER3_COMPLETENESS_REPORT.html\">TIER 3 Report</a></strong> - Grouping, unfold, boolean operations</li>\n    <li><strong><a href=\"ACHIEVEMENT_SUMMARY.html\">Achievement Summary</a></strong> - Final celebration</li>\n</ul>\n\n<hr>\n\n<p style=\"text-align: center; color: #7f8c8d; margin-top: 40px;\">\n    <em>Bringing Haskell\x27s elegance to C\x27s performance. One assembly instruction at a time.</em> 💙⚡\n</p>\n" : String).data

/-- Python `str.replace` scanner: left-to-right, non-overlapping. -/
def pyReplaceGo (pat rep : List Char) : Nat → List Char → List Char
  | 0, l => l
  | _ + 1, [] => []
  | n + 1, c :: cs =>
    if pat.isPrefixOf (c :: cs) then rep ++ pyReplaceGo pat rep n ((c :: cs).drop pat.length)
    else c :: pyReplaceGo pat rep n cs

/-- Python `str.replace(pat, rep)` (for the nonempty patterns used here). -/
def pyReplace (pat rep s : List Char) : List Char := pyReplaceGo pat rep s.length s

/-- Lazy body of `<h1>(.+?)</h1>`: the shortest nonempty newline-free run
followed by `</h1>`. -/
def h1Close : List Char → Option (List Char × List Char)
  | [] => none
  | c :: cs =>
    if c = '\n' then none
    else if ("</h1>".data).isPrefixOf cs then some ([c], cs.drop 5)
    else
      match h1Close cs with
      | some (t, r) => some (c :: t, r)
      | none => none

/-- The first match of `re.search(r'<h1>(.+?)</h1>', ...)` (source line 665):
scan left to right; at each position starting with `<h1>` try the lazy close,
otherwise (or on failure) advance one character. -/
def h1Search : List Char → Option (List Char)
  | [] => none
  | c :: cs =>
    if ("<h1>".data).isPrefixOf (c :: cs) then
      match h1Close (cs.drop 3) with
      | some (t, _) => some t
      | none => h1Search cs
    else h1Search cs

/-- Scanner for `re.sub(r'<[^>]+>', '', title)` (source line 667). -/
def stripTagsGo : Nat → List Char → List Char
  | 0, l => l
  | _ + 1, [] => []
  | n + 1, c :: cs =>
    if c = '<' then
      let inner := cs.takeWhile (fun d => !(d = '>'))
      match cs.drop inner.length, inner with
      | _ :: rest, _ :: _ => stripTagsGo n rest
      | _, _ => c :: stripTagsGo n cs
    else c :: stripTagsGo n cs

/-- Removing markup tags from a title. -/
def stripTags (s : List Char) : List Char := stripTagsGo s.length s

/-- Title derivation of the page assembler (source lines 664-667): the first
`<h1>(.+?)</h1>` match with markup tags stripped, else the fallback. -/
def extractTitle (fragment : List Char) : List Char :=
  match h1Search fragment with
  | some t => stripTags t
  | none => "FP-ASM".data

/-- `HTML_TEMPLATE.format(...)`: the template's literal segments interleaved
with the field values, in the order the fields occur in the template. -/
def HTML_TEMPLATE_format (title content active_index active_readme active_quick
    active_api active_complete active_tier1 active_tier2 active_tier3
    active_achievement : List Char) : List Char :=
  tplSeg0 ++ title ++ tplSeg1 ++ active_index ++ tplSeg2 ++ active_readme ++ tplSeg3 ++
    active_quick ++ tplSeg4 ++ active_api ++ tplSeg5 ++ active_complete ++ tplSeg6 ++
    active_tier1 ++ tplSeg7 ++ active_tier2 ++ tplSeg8 ++ active_tier3 ++ tplSeg9 ++
    active_achievement ++ tplSeg10 ++ content ++ tplSeg11

/-- The configured markdown file list (source lines 604-613). -/
def md_files : List String :=
  ["README.md", "QUICK_START.md", "API_REFERENCE.md", "COMPLETE_LIBRARY_REPORT.md",
    "TIER1_COMPLETENESS_REPORT.md", "TIER2_COMPLETENESS_REPORT.md",
    "TIER3_COMPLETENESS_REPORT.md", "ACHIEVEMENT_SUMMARY.md"]

/-- The `active` marker for one navigation flag (source lines 635-662): the
flag whose page is being generated gets `active`, all others stay empty. -/
def activeFlag (mdFile target : String) : List Char :=
  if mdFile = target then "active".data else []

/-- Template substitution for one converted markdown file (source lines
670-674): the title comes from the fragment, `active_index` is always empty
for markdown-derived pages. -/
def substitutedDoc (mdFile : String) (fragment : List Char) : List Char :=
  HTML_TEMPLATE_format (extractTitle fragment) fragment []
    (activeFlag mdFile "README.md") (activeFlag mdFile "QUICK_START.md")
    (activeFlag mdFile "API_REFERENCE.md") (activeFlag mdFile "COMPLETE_LIBRARY_REPORT.md")
    (activeFlag mdFile "TIER1_COMPLETENESS_REPORT.md")
    (activeFlag mdFile "TIER2_COMPLETENESS_REPORT.md")
    (activeFlag mdFile "TIER3_COMPLETENESS_REPORT.md")
    (activeFlag mdFile "ACHIEVEMENT_SUMMARY.md")

/-- The final fix-up pass of the assembler (source line 677). -/
def fixupMdLinks (doc : List Char) : List Char :=
  pyReplace ".md\"".data ".html\"".data doc

/-- The complete written document for one markdown file: convert, substitute
into the template, then rewrite `.md"` link targets. -/
def pageFor (mdFile : String) (markdown : String) : List Char :=
  fixupMdLinks (substitutedDoc mdFile (convertL markdown.data))

/-- Output filename: same base name with an `.html` extension (source line
680; every configured name ends in `.md`). -/
def htmlName (f : String) : String :=
  String.mk (f.data.take (f.data.length - 3) ++ ".html".data)

/-- The per-file loop of the orchestrator (source lines 618-685) over a given
file list, abstracted over the file system: `ex f` says whether file `f`
exists, `content f` is its text.  Returns the skip warnings, the written
pages, and the converted-file count. -/
def processFiles (ex : String → Bool) (content : String → String) :
    List String → List String × List (String × String) × Nat
  | [] => ([], [], 0)
  | f :: fs =>
    let r := processFiles ex content fs
    if ex f then (r.1, (htmlName f, String.mk (pageFor f (content f))) :: r.2.1, r.2.2 + 1)
    else (f :: r.1, r.2.1, r.2.2)

/-- Result of one orchestrator run. -/
structure GenResult where
  warnings : List String
  pages : List (String × String)
  reported : Nat

/-- The landing page document (source lines 689-704): `active_index` is
`active`, all other flags empty, title `Home`; no `.md"` fix-up is applied. -/
def indexDoc : List Char :=
  HTML_TEMPLATE_format "Home".data create_index_page "active".data [] [] [] [] [] [] [] []

/-- `generate_html_docs` (source lines 593-711), abstracted over the file
system: process the configured list, then write the landing page; the
reported page count is the converted count plus one (source line 708). -/
def generate_html_docs (ex : String → Bool) (content : String → String) : GenResult :=
  let r := processFiles ex content md_files
  ⟨r.1, r.2.1 ++ [("index.html", String.mk indexDoc)], r.2.2 + 1⟩

/-! ### Predicates used to state the claims -/

/-- Absence of the markdown-special characters listed in claim C4: no
backtick, asterisk or pipe characters, no line beginning `# ` or `- `, and no
`[..](..)` link sequence (formalised as: the link pass rewrites nothing). -/
def noMarkdownSpecial (s : List Char) : Bool :=
  s.all (fun c => !(c = btChar) && !(c = '*') && !(c = '|')) &&
  (linesOf s).all (fun l => !(("# ".data).isPrefixOf l) && !(("- ".data).isPrefixOf l)) &&
  linksPass s == s

/-- Text on which every pattern-directed pass of the converter finds nothing
to rewrite: no backtick, asterisk, bracket or pipe characters, no emoji, no
header / rule / list-item line, and no `<li>` markup for the list-wrapping
pass to seize.  (The paragraph pass is not restricted.) -/
def noConverterPatterns (s : List Char) : Bool :=
  s.all (fun c => !(c = btChar) && !(c = '*') && !(c = '[') && !(c = '|') &&
    !isEmojiChar c) &&
  (linesOf s).all (fun l =>
    !headerMatches "# ".data l && !headerMatches "## ".data l &&
    !headerMatches "### ".data l && !headerMatches "#### ".data l &&
    !hrMatches l && !liMatches l && !olMatches l) &&
  !hasSubstr "<li>".data s

/-- Characters inert under every pass of the converter: letters, digits,
spaces and newlines. -/
def inertChar (c : Char) : Bool := c.isAlphanum || c = ' ' || c = '\n'

/-- Rendering of one pipe-delimited table row from its cell texts
(statement vocabulary for the table claim): `|c1|c2|...|`. -/
def rowLine (cells : List (List Char)) : List Char :=
  '|' :: cells.flatMap (fun c => c ++ ['|'])

/-- Rendering of a well-formed markdown table block: a header row, a
separator row with the given interior, and newline-terminated data rows. -/
def tableBlock (hdr : List (List Char)) (sepInner : List Char)
    (rows : List (List (List Char))) : List Char :=
  rowLine hdr ++ '\n' :: ('|' :: (sepInner ++ ['|'])) ++ '\n' ::
    rows.flatMap (fun r => rowLine r ++ ['\n'])

/-- The table markup `convert_table` produces for the given header and data
cells: one `<th>` row, one `<td>` row per data row, every cell stripped. -/
def tableHtml (hdr : List (List Char)) (rows : List (List (List Char))) : List Char :=
  "<table>\n".data ++
    ("<tr>".data ++ (hdr.map pyStrip).flatMap
      (fun h => "<th>".data ++ h ++ "</th>".data) ++ "</tr>\n".data) ++
    rows.flatMap (fun r => "<tr>".data ++ (r.map pyStrip).flatMap
      (fun c => "<td>".data ++ c ++ "</td>".data) ++ "</tr>\n".data) ++
    "</table>".data

/-! ### General lemmas about the string helpers -/

theorem mk_data (l : List Char) : (String.mk l).data = l := rfl

/-- Unfolding lemma for the converter: stated once so that no proof ever
asks the elaborator to unfold the whole pass pipeline on a symbolic input. -/
theorem convert_markdown_to_html_data (s : String) :
    (convert_markdown_to_html s).data = convertL s.data := by
  have h1 : convert_markdown_to_html s = String.mk (convertL s.data) := rfl
  rw [h1, mk_data]

theorem splitOnChar_eq_splitOn (sep : Char) (s : List Char) :
    splitOnChar sep s = s.splitOn sep := by
  induction s with
  | nil => rfl
  | cons c cs ih =>
    rw [splitOnChar, List.splitOn, List.splitOnP_cons]
    by_cases h : c = sep
    · simp only [h, beq_self_eq_true, if_true, if_pos rfl]
      rw [ih, List.splitOn]
    · rw [if_neg h, if_neg (by simpa using h), ih, List.splitOn]
      have hne := List.splitOnP_ne_nil (fun x => x == sep) cs
      match hsp : List.splitOnP (fun x => x == sep) cs with
      | [] => exact absurd hsp hne
      | l :: ls => rfl

theorem linesOf_ne_nil (s : List Char) : linesOf s ≠ [] := by
  rw [linesOf, splitOnChar_eq_splitOn]
  exact List.splitOnP_ne_nil _ s

theorem joinNl_linesOf (s : List Char) : joinNl (linesOf s) = s := by
  rw [linesOf, splitOnChar_eq_splitOn, joinNl]
  exact List.intercalate_splitOn s '\n'

theorem linesOf_joinNl (ls : List (List Char)) (h : ∀ l ∈ ls, '\n' ∉ l) (hne : ls ≠ []) :
    linesOf (joinNl ls) = ls := by
  rw [linesOf, splitOnChar_eq_splitOn, joinNl]
  exact List.splitOn_intercalate ls '\n' h hne

theorem hasSubstr_iff_occurs (p s : List Char) : hasSubstr p s = true ↔ p <:+: s := by
  induction s with
  | nil => simp [hasSubstr, List.infix_nil]
  | cons c cs ih => rw [hasSubstr]; simp [ih, List.infix_cons_iff]

theorem hasSubstr_cons_of (p : List Char) (c : Char) (s : List Char)
    (h : hasSubstr p s = true) : hasSubstr p (c :: s) = true := by
  rw [hasSubstr, h, Bool.or_true]

theorem splitAtSub_eq_none (p s : List Char) (h : hasSubstr p s = false) :
    splitAtSub p s = none := by
  induction s with
  | nil => rw [hasSubstr] at h; rw [splitAtSub, if_neg (by simp [h])]
  | cons c cs ih =>
    rw [hasSubstr, Bool.or_eq_false_iff] at h
    rw [splitAtSub, if_neg (by simp [h.1]), ih h.2]

theorem splitAtSub_append (p a b : List Char) (hp : p ≠ [])
    (h : hasSubstr p (a ++ p.dropLast) = false) :
    splitAtSub p (a ++ p ++ b) = some (a, b) := by
  induction a with
  | nil =>
    match p, hp with
    | q :: qs, _ =>
      rw [List.nil_append, List.cons_append, splitAtSub,
        if_pos (by simp [List.prefix_append])]
      show some (([] : List Char), ((q :: qs) ++ b).drop (q :: qs).length) = some ([], b)
      rw [List.drop_left]
  | cons c a' ih =>
    have hcons : (c :: a') ++ p ++ b = c :: (a' ++ p ++ b) := by simp
    rw [hcons, splitAtSub]
    have hnp : ¬ (p.isPrefixOf (c :: (a' ++ p ++ b)) = true) := by
      intro hcon
      rw [List.isPrefixOf_iff_prefix] at hcon
      have hlen : p.length ≤ ((c :: a') ++ p.dropLast).length := by
        simp [List.dropLast_eq_take]
        omega
      have htake : ((c :: a') ++ p ++ b).take ((c :: a').length + (p.length - 1)) =
          (c :: a') ++ p.dropLast := by
        rw [List.append_assoc, List.take_append_eq_append_take,
          List.take_of_length_le (by omega), Nat.add_sub_cancel_left,
          List.take_append_of_le_length (by omega), List.dropLast_eq_take]
      have hpre : p <+: ((c :: a') ++ p ++ b).take ((c :: a').length + (p.length - 1)) := by
        rw [List.prefix_take_iff]
        constructor
        · rw [hcons]; exact hcon
        · have hplen : 1 ≤ p.length := List.length_pos.mpr hp
          simp
          omega
      rw [htake] at hpre
      have : hasSubstr p ((c :: a') ++ p.dropLast) = true :=
        (hasSubstr_iff_occurs _ _).mpr hpre.isInfix
      rw [h] at this
      simp at this
    rw [if_neg hnp]
    have h' : hasSubstr p (a' ++ p.dropLast) = false := by
      have : (c :: a') ++ p.dropLast = c :: (a' ++ p.dropLast) := by simp
      rw [this, hasSubstr, Bool.or_eq_false_iff] at h
      exact h.2
    rw [ih h']

theorem splitAtLastSub_eq_none (p s : List Char) (h : hasSubstr p s = false) :
    splitAtLastSub p s = none := by
  induction s with
  | nil => rfl
  | cons c cs ih =>
    rw [hasSubstr, Bool.or_eq_false_iff] at h
    rw [splitAtLastSub, ih h.2, if_neg (by simp [h.1])]

theorem splitAtLastSub_append (p a b : List Char) (hp : p ≠ [])
    (h : hasSubstr p (p.drop 1 ++ b) = false) :
    splitAtLastSub p (a ++ p ++ b) = some (a, b) := by
  induction a with
  | nil =>
    match p, hp with
    | q :: qs, _ =>
      rw [List.nil_append, List.cons_append, splitAtLastSub,
        splitAtLastSub_eq_none _ _ (by simpa using h),
        if_pos (by simp [List.prefix_append])]
      show some (([] : List Char), ((q :: qs) ++ b).drop (q :: qs).length) = some ([], b)
      rw [List.drop_left]
  | cons c a' ih =>
    have hcons : (c :: a') ++ p ++ b = c :: (a' ++ p ++ b) := by simp
    rw [hcons, splitAtLastSub, ih]

/-! ### Identity of the pattern-directed passes on inert text -/

theorem mapLines_id (f : List Char → List Char) (s : List Char)
    (h : ∀ l ∈ linesOf s, f l = l) : mapLines f s = s := by
  rw [mapLines]
  have : (linesOf s).map f = (linesOf s).map id := List.map_congr_left (by simpa using h)
  rw [this, List.map_id, joinNl_linesOf]

theorem headerLine_id (hashes openT closeT l : List Char)
    (h : headerMatches hashes l = false) : headerLine hashes openT closeT l = l := by
  rw [headerLine, if_neg (by simp [h])]

theorem codeBlockGo_id (s : List Char) (h : ∀ c ∈ s, c ≠ btChar) :
    ∀ n, codeBlockGo n s = s := by
  induction s with
  | nil => intro n; cases n <;> rfl
  | cons c cs ih =>
    intro n
    match n with
    | 0 => rfl
    | n + 1 =>
      rw [codeBlockGo]
      have hc : c ≠ btChar := h c (List.mem_cons_self c cs)
      have hpre : (("```".data).isPrefixOf (c :: cs)) = false := by
        have hbt : "```".data = [btChar, btChar, btChar] := by decide
        rw [hbt]
        simp [List.isPrefixOf]
        intro hcon
        exact absurd hcon.symm hc
      rw [if_neg (by simp [hpre])]
      rw [ih (fun d hd => h d (List.mem_cons_of_mem c hd)) n]

theorem inlineCodeGo_id (s : List Char) (h : ∀ c ∈ s, c ≠ btChar) :
    ∀ n, inlineCodeGo n s = s := by
  induction s with
  | nil => intro n; cases n <;> rfl
  | cons c cs ih =>
    intro n
    match n with
    | 0 => rfl
    | n + 1 =>
      rw [inlineCodeGo]
      rw [if_neg (h c (List.mem_cons_self c cs))]
      rw [ih (fun d hd => h d (List.mem_cons_of_mem c hd)) n]

theorem boldGo_id (s : List Char) (h : ∀ c ∈ s, c ≠ '*') :
    ∀ n, boldGo n s = s := by
  induction s with
  | nil => intro n; cases n <;> rfl
  | cons c cs ih =>
    intro n
    match n with
    | 0 => rfl
    | n + 1 =>
      rw [boldGo]
      have hc : c ≠ '*' := h c (List.mem_cons_self c cs)
      have hpre : (("**".data).isPrefixOf (c :: cs)) = false := by
        have hst : "**".data = ['*', '*'] := by decide
        rw [hst]
        simp [List.isPrefixOf]
        intro hcon
        exact absurd hcon.symm hc
      rw [if_neg (by simp [hpre])]
      rw [ih (fun d hd => h d (List.mem_cons_of_mem c hd)) n]

theorem italGo_id (s : List Char) (h : ∀ c ∈ s, c ≠ '*') :
    ∀ n, italGo n s = s := by
  induction s with
  | nil => intro n; cases n <;> rfl
  | cons c cs ih =>
    intro n
    match n with
    | 0 => rfl
    | n + 1 =>
      rw [italGo]
      rw [if_neg (h c (List.mem_cons_self c cs))]
      rw [ih (fun d hd => h d (List.mem_cons_of_mem c hd)) n]

theorem linkGo_id (s : List Char) (h : ∀ c ∈ s, c ≠ '[') :
    ∀ n, linkGo n s = s := by
  induction s with
  | nil => intro n; cases n <;> rfl
  | cons c cs ih =>
    intro n
    match n with
    | 0 => rfl
    | n + 1 =>
      rw [linkGo]
      rw [if_neg (h c (List.mem_cons_self c cs))]
      rw [ih (fun d hd => h d (List.mem_cons_of_mem c hd)) n]

theorem takeLine_eq (s l r : List Char) (h : takeLine s = some (l, r)) :
    s = l ++ '\n' :: r := by
  induction s generalizing l with
  | nil => simp [takeLine] at h
  | cons c cs ih =>
    rw [takeLine] at h
    by_cases hc : c = '\n'
    · rw [if_pos hc] at h
      cases h
      simp [hc]
    · rw [if_neg hc] at h
      match hcs : takeLine cs with
      | some (l', r') =>
        rw [hcs] at h
        cases h
        rw [ih l' hcs]
        simp
      | none => rw [hcs] at h; cases h

theorem tryTable_none (s : List Char) (h : ∀ c ∈ s, c ≠ '|') :
    tryTable s = none := by
  rw [tryTable]
  match hl : takeLine s with
  | none => rfl
  | some (l1, r1) =>
    have hrow : isRowLine l1 = false := by
      match l1 with
      | [] => rfl
      | d :: t =>
        have hd : d ∈ s := by
          rw [takeLine_eq s (d :: t) r1 hl]
          exact List.mem_append_left _ (List.mem_cons_self d t)
        rw [isRowLine]
        simp only [List.head?_cons, Option.some.injEq]
        rw [Bool.and_eq_false_iff, Bool.and_eq_false_iff]
        exact Or.inl (Or.inl (by simpa using h d hd))
    simp [hrow]

theorem tableGo_id (s : List Char) (h : ∀ c ∈ s, c ≠ '|') :
    ∀ n, tableGo n s = s := by
  induction s with
  | nil => intro n; cases n <;> rfl
  | cons c cs ih =>
    intro n
    match n with
    | 0 => rfl
    | n + 1 =>
      rw [tableGo, tryTable_none (c :: cs) h]
      rw [ih (fun d hd => h d (List.mem_cons_of_mem c hd)) n]

theorem ulWrapPass_id (s : List Char) (h : hasSubstr "<li>".data s = false) :
    ulWrapPass s = s := by
  rw [ulWrapPass, splitAtSub_eq_none _ _ h]

theorem emojiPass_id (s : List Char) (h : ∀ c ∈ s, isEmojiChar c = false) :
    emojiPass s = s := by
  induction s with
  | nil => rfl
  | cons c cs ih =>
    rw [emojiPass] at ih ⊢
    rw [List.flatMap_cons, if_neg (by simp [h c (List.mem_cons_self c cs)]),
      ih (fun d hd => h d (List.mem_cons_of_mem c hd))]
    rfl

/-! ### Structure of joined line lists -/

theorem joinNl_single (l : List Char) : joinNl [l] = l := by
  simp [joinNl, List.intercalate]

theorem joinNl_cons₂ (l l' : List Char) (ls : List (List Char)) :
    joinNl (l :: l' :: ls) = l ++ '\n' :: joinNl (l' :: ls) := by
  simp [joinNl, List.intercalate, List.intersperse_cons_cons]

theorem infix_joinNl (ls : List (List Char)) (l : List Char) (h : l ∈ ls) :
    l <:+: joinNl ls := by
  induction ls with
  | nil => cases h
  | cons x xs ih =>
    match xs with
    | [] =>
      rw [List.mem_singleton] at h
      rw [h, joinNl_single]
    | y :: ys =>
      rw [joinNl_cons₂]
      rcases List.mem_cons.mp h with h | h
      · rw [h]; exact ⟨[], '\n' :: joinNl (y :: ys), by simp⟩
      · exact (ih h).trans ⟨x ++ ['\n'], [], by simp⟩

theorem mem_joinNl (ls : List (List Char)) (c : Char) (h : c ∈ joinNl ls) :
    c = '\n' ∨ ∃ l ∈ ls, c ∈ l := by
  induction ls with
  | nil => simp [joinNl, List.intercalate] at h
  | cons x xs ih =>
    match xs with
    | [] =>
      rw [joinNl_single] at h
      exact Or.inr ⟨x, List.mem_singleton_self x, h⟩
    | y :: ys =>
      rw [joinNl_cons₂, List.mem_append] at h
      rcases h with h | h
      · exact Or.inr ⟨x, List.mem_cons_self x _, h⟩
      · rcases List.mem_cons.mp h with h | h
        · exact Or.inl h
        · rcases ih h with h | ⟨l, hl, hc⟩
          · exact Or.inl h
          · exact Or.inr ⟨l, List.mem_cons_of_mem x hl, hc⟩

theorem splitOnChar_ne_nil (sep : Char) (s : List Char) : splitOnChar sep s ≠ [] := by
  rw [splitOnChar_eq_splitOn, List.splitOn]
  exact List.splitOnP_ne_nil _ s

theorem mem_of_mem_splitOnChar (sep : Char) (s l : List Char) (c : Char)
    (hl : l ∈ splitOnChar sep s) (hc : c ∈ l) : c ∈ s := by
  induction s generalizing l with
  | nil =>
    rw [splitOnChar, List.mem_singleton] at hl
    rw [hl] at hc
    cases hc
  | cons d cs ih =>
    rw [splitOnChar] at hl
    by_cases hd : d = sep
    · rw [if_pos hd] at hl
      rcases List.mem_cons.mp hl with h | h
      · rw [h] at hc; cases hc
      · exact List.mem_cons_of_mem d (ih l h hc)
    · rw [if_neg hd] at hl
      match hsp : splitOnChar sep cs with
      | [] => exact absurd hsp (splitOnChar_ne_nil sep cs)
      | l0 :: ls =>
        rw [hsp] at hl
        rcases List.mem_cons.mp hl with h | h
        · rw [h] at hc
          rcases List.mem_cons.mp hc with h' | h'
          · exact h' ▸ List.mem_cons_self d cs
          · exact List.mem_cons_of_mem d (ih l0 (hsp ▸ List.mem_cons_self l0 ls) h')
        · exact List.mem_cons_of_mem d (ih l (hsp ▸ List.mem_cons_of_mem l0 h) hc)

/-! ### The paragraph pass -/

theorem pyStripL_cons_of_nonspace (c : Char) (t : List Char) (h : isPySpace c = false) :
    pyStripL (c :: t) = c :: t := by
  simp [pyStripL, List.dropWhile_cons, h]

theorem pyStripR_of_getLast (l : List Char)
    (h : ∀ c, l.getLast? = some c → isPySpace c = false) : pyStripR l = l := by
  rw [pyStripR]
  match hl : l.reverse with
  | [] =>
    have hnil : l = [] := by simpa using congrArg List.reverse hl
    simp [hnil]
  | c :: t =>
    have hc : l.getLast? = some c := by rw [← List.head?_reverse, hl]; rfl
    have hle : l = (c :: t).reverse := by simpa using congrArg List.reverse hl
    rw [List.dropWhile_cons, h c hc, hle]
    simp

/-- The stripped form of a line that starts and ends with a non-space
character is the line itself. -/
theorem pyStrip_eq_self (c : Char) (t : List Char) (hc : isPySpace c = false)
    (h : ∀ d, (c :: t).getLast? = some d → isPySpace d = false) :
    pyStrip (c :: t) = c :: t := by
  rw [pyStrip, pyStripL_cons_of_nonspace c t hc, pyStripR_of_getLast _ h]

theorem paraStep_stable (b : Bool) (l : List Char) :
    paraStep b (paraStep b l).1 = paraStep b l := by
  by_cases h1 : startsWithAny blockOpenPrefixes (pyStrip l) = true
  · simp [paraStep, h1]
  · by_cases h2 : startsWithAny blockClosePrefixes (pyStrip l) = true
    · simp [paraStep, h1, h2]
    · by_cases h3 : (pyStrip l).isEmpty = true
      · simp [paraStep, h1, h2, h3]
      · by_cases h4 : (!b && !(pyStrip l).isEmpty &&
            !(("<".data).isPrefixOf (pyStrip l))) = true
        · have hb : b = false := by
            cases b
            · rfl
            · simp at h4
          subst hb
          have hres : paraStep false l = ("<p>".data ++ l ++ "</p>".data, false) := by
            simp only [paraStep]
            rw [if_neg (by simp [h1]), if_neg (by simp [h2]), if_neg (by simp [h3]),
              if_pos (by simpa using h4)]
          rw [hres]
          have hshape : "<p>".data ++ l ++ "</p>".data =
              '<' :: 'p' :: '>' :: (l ++ "</p>".data) := rfl
          have hlast : ∀ d, ('<' :: 'p' :: '>' :: (l ++ "</p>".data)).getLast? = some d →
              isPySpace d = false := by
            intro d hd
            have hg : ('<' :: 'p' :: '>' :: (l ++ "</p>".data)).getLast? = some '>' := by
              have h5 : '<' :: 'p' :: '>' :: (l ++ "</p>".data) =
                  ('<' :: 'p' :: '>' :: (l ++ ['<', '/', 'p'])) ++ ['>'] := by
                simp [show ("</p>".data : List Char) = ['<', '/', 'p', '>'] from rfl]
              rw [h5, List.getLast?_concat]
            rw [hg] at hd
            cases hd
            decide
          have hstrip : pyStrip ("<p>".data ++ l ++ "</p>".data) =
              "<p>".data ++ l ++ "</p>".data := by
            rw [hshape]
            exact pyStrip_eq_self '<' _ (by decide) hlast
          simp only [paraStep, hstrip]
          rw [if_neg (c := startsWithAny blockOpenPrefixes _ = true)
              (by rw [hshape]; simp [startsWithAny, blockOpenPrefixes, List.isPrefixOf]),
            if_neg (c := startsWithAny blockClosePrefixes _ = true)
              (by rw [hshape]; simp [startsWithAny, blockClosePrefixes, List.isPrefixOf]),
            if_neg (c := List.isEmpty _ = true) (by rw [hshape]; simp),
            if_neg (by rw [hshape]; simp [List.isPrefixOf])]
        · have hres : paraStep b l = (l, b) := by
            simp only [paraStep]
            rw [if_neg (by simp [h1]), if_neg (by simp [h2]), if_neg (by simp [h3]),
              if_neg (by simpa using h4)]
          rw [hres]
          exact hres

theorem paraGo_cons (b : Bool) (l : List Char) (ls : List (List Char)) :
    paraGo b (l :: ls) = (paraStep b l).1 :: paraGo (paraStep b l).2 ls := rfl

theorem paraGo_stable (b : Bool) (ls : List (List Char)) :
    paraGo b (paraGo b ls) = paraGo b ls := by
  induction ls generalizing b with
  | nil => rfl
  | cons l ls ih =>
    rw [paraGo_cons b l ls, paraGo_cons, paraStep_stable b l, ih]

theorem paraStep_no_newline (b : Bool) (l : List Char) (h : '\n' ∉ l) :
    '\n' ∉ (paraStep b l).1 := by
  rw [paraStep]
  split
  · exact h
  · split
    · exact h
    · split
      · exact h
      · split
        · intro hc
          rw [List.mem_append, List.mem_append] at hc
          rcases hc with (hc | hc) | hc
          · revert hc; decide
          · exact h hc
          · revert hc; decide
        · exact h

theorem paraGo_length (b : Bool) (ls : List (List Char)) :
    (paraGo b ls).length = ls.length := by
  induction ls generalizing b with
  | nil => rfl
  | cons l ls ih =>
    rw [paraGo]
    match hs : paraStep b l with
    | (l', b') => simp [ih]

theorem splitOnChar_no_sep (sep : Char) (s : List Char) :
    ∀ l ∈ splitOnChar sep s, sep ∉ l := by
  induction s with
  | nil =>
    intro l hl
    rw [splitOnChar, List.mem_singleton] at hl
    rw [hl]
    simp
  | cons c cs ih =>
    intro l hl
    rw [splitOnChar] at hl
    by_cases hc : c = sep
    · rw [if_pos hc] at hl
      rcases List.mem_cons.mp hl with h | h
      · rw [h]; simp
      · exact ih l h
    · rw [if_neg hc] at hl
      match hsp : splitOnChar sep cs with
      | [] => exact absurd hsp (splitOnChar_ne_nil sep cs)
      | l0 :: ls =>
        rw [hsp] at hl
        rcases List.mem_cons.mp hl with h | h
        · rw [h]
          intro hmem
          rcases List.mem_cons.mp hmem with h' | h'
          · exact hc h'.symm
          · exact ih l0 (hsp ▸ List.mem_cons_self l0 ls) h'
        · exact ih l (hsp ▸ List.mem_cons_of_mem l0 h)

theorem linesOf_no_newline (s : List Char) : ∀ l ∈ linesOf s, '\n' ∉ l :=
  fun l hl => splitOnChar_no_sep '\n' s l hl

theorem paraGo_no_newline (b : Bool) (ls : List (List Char))
    (h : ∀ l ∈ ls, '\n' ∉ l) : ∀ l' ∈ paraGo b ls, '\n' ∉ l' := by
  induction ls generalizing b with
  | nil => intro l' hl'; cases hl'
  | cons l ls ih =>
    intro l' hl'
    rw [paraGo] at hl'
    match hs : paraStep b l with
    | (x, b') =>
      rw [hs] at hl'
      rcases List.mem_cons.mp hl' with h' | h'
      · rw [h']
        have hnl := paraStep_no_newline b l (h l (List.mem_cons_self l ls))
        rw [hs] at hnl
        exact hnl
      · exact ih b' (fun y hy => h y (List.mem_cons_of_mem l hy)) l' h'

/-- The paragraph pass is idempotent. -/
theorem paragraphsPass_idem (s : List Char) :
    paragraphsPass (paragraphsPass s) = paragraphsPass s := by
  simp only [paragraphsPass]
  have hnn : ∀ l ∈ paraGo false (linesOf s), '\n' ∉ l :=
    paraGo_no_newline false (linesOf s) (linesOf_no_newline s)
  rw [linesOf_joinNl _ hnn, paraGo_stable]
  intro hcon
  have := paraGo_length false (linesOf s)
  rw [hcon] at this
  exact absurd this.symm (by simpa using linesOf_ne_nil s)

/-! ### The converter on pattern-free text -/

theorem h1Pass_id (s : List Char) (h : ∀ l ∈ linesOf s, headerMatches "# ".data l = false) :
    h1Pass s = s :=
  mapLines_id _ s (fun l hl => headerLine_id _ _ _ _ (h l hl))

theorem h2Pass_id (s : List Char) (h : ∀ l ∈ linesOf s, headerMatches "## ".data l = false) :
    h2Pass s = s :=
  mapLines_id _ s (fun l hl => headerLine_id _ _ _ _ (h l hl))

theorem h3Pass_id (s : List Char) (h : ∀ l ∈ linesOf s, headerMatches "### ".data l = false) :
    h3Pass s = s :=
  mapLines_id _ s (fun l hl => headerLine_id _ _ _ _ (h l hl))

theorem h4Pass_id (s : List Char)
    (h : ∀ l ∈ linesOf s, headerMatches "#### ".data l = false) : h4Pass s = s :=
  mapLines_id _ s (fun l hl => headerLine_id _ _ _ _ (h l hl))

theorem hrPass_id (s : List Char) (h : ∀ l ∈ linesOf s, hrMatches l = false) :
    hrPass s = s :=
  mapLines_id _ s (fun l hl => by rw [if_neg (by simp [h l hl])])

theorem liPass_id (s : List Char) (h : ∀ l ∈ linesOf s, liMatches l = false) :
    liPass s = s :=
  mapLines_id _ s (fun l hl => by rw [if_neg (by simp [h l hl])])

theorem olPass_id (s : List Char) (h : ∀ l ∈ linesOf s, olMatches l = false) :
    olPass s = s :=
  mapLines_id _ s (fun l hl => by rw [if_neg (by simp [h l hl])])

theorem paraStep_mem (b : Bool) (l : List Char) (c : Char) (hc : c ∈ (paraStep b l).1) :
    c ∈ l ∨ c ∈ "<p></p>".data := by
  rw [paraStep] at hc
  split at hc
  · exact Or.inl hc
  · split at hc
    · exact Or.inl hc
    · split at hc
      · exact Or.inl hc
      · split at hc
        · rw [List.mem_append, List.mem_append] at hc
          rcases hc with (hc | hc) | hc
          · right
            have : ("<p>".data : List Char) = ['<', 'p', '>'] := rfl
            rw [this] at hc
            simp at hc ⊢
            tauto
          · exact Or.inl hc
          · right
            have : ("</p>".data : List Char) = ['<', '/', 'p', '>'] := rfl
            rw [this] at hc
            simp at hc ⊢
            tauto
        · exact Or.inl hc

theorem paraGo_mem (b : Bool) (ls : List (List Char)) (l' : List Char) (c : Char)
    (hl' : l' ∈ paraGo b ls) (hc : c ∈ l') : c ∈ "<p></p>".data ∨ ∃ l ∈ ls, c ∈ l := by
  induction ls generalizing b with
  | nil => cases hl'
  | cons l ls ih =>
    rw [paraGo_cons] at hl'
    rcases List.mem_cons.mp hl' with h | h
    · rcases paraStep_mem b l c (h ▸ hc) with h' | h'
      · exact Or.inr ⟨l, List.mem_cons_self l ls, h'⟩
      · exact Or.inl h'
    · rcases ih (paraStep b l).2 h with h' | ⟨x, hx, hcx⟩
      · exact Or.inl h'
      · exact Or.inr ⟨x, List.mem_cons_of_mem l hx, hcx⟩

theorem paragraphsPass_mem (s : List Char) (c : Char) (hc : c ∈ paragraphsPass s) :
    c = '\n' ∨ c ∈ "<p></p>".data ∨ c ∈ s := by
  rw [paragraphsPass] at hc
  rcases mem_joinNl _ c hc with h | ⟨l', hl', hcl⟩
  · exact Or.inl h
  · rcases paraGo_mem false (linesOf s) l' c hl' hcl with h | ⟨l, hl, hcl'⟩
    · exact Or.inr (Or.inl h)
    · exact Or.inr (Or.inr (mem_of_mem_splitOnChar '\n' s l c hl hcl'))

/-- On text where no pattern-directed pass finds anything to rewrite, the
converter reduces to the paragraph-wrapping pass alone. -/
theorem convertL_plain (s : List Char) (h : noConverterPatterns s = true) :
    convertL s = paragraphsPass s := by
  rw [noConverterPatterns] at h
  simp only [Bool.and_eq_true, List.all_eq_true] at h
  obtain ⟨⟨hchar, hline⟩, hli⟩ := h
  have hbt : ∀ c ∈ s, c ≠ btChar := fun c hc => by
    have := hchar c hc; simp at this; exact this.1.1.1.1
  have hst : ∀ c ∈ s, c ≠ '*' := fun c hc => by
    have := hchar c hc; simp at this; exact this.1.1.1.2
  have hbr : ∀ c ∈ s, c ≠ '[' := fun c hc => by
    have := hchar c hc; simp at this; exact this.1.1.2
  have hpi : ∀ c ∈ s, c ≠ '|' := fun c hc => by
    have := hchar c hc; simp at this; exact this.1.2
  have hem : ∀ c ∈ s, isEmojiChar c = false := fun c hc => by
    have := hchar c hc; simp at this; exact this.2
  have hl1 : ∀ l ∈ linesOf s, headerMatches "# ".data l = false := fun l hl => by
    have := hline l hl; simp only [Bool.and_eq_true, Bool.not_eq_true'] at this
    exact this.1.1.1.1.1.1
  have hl2 : ∀ l ∈ linesOf s, headerMatches "## ".data l = false := fun l hl => by
    have := hline l hl; simp only [Bool.and_eq_true, Bool.not_eq_true'] at this
    exact this.1.1.1.1.1.2
  have hl3 : ∀ l ∈ linesOf s, headerMatches "### ".data l = false := fun l hl => by
    have := hline l hl; simp only [Bool.and_eq_true, Bool.not_eq_true'] at this
    exact this.1.1.1.1.2
  have hl4 : ∀ l ∈ linesOf s, headerMatches "#### ".data l = false := fun l hl => by
    have := hline l hl; simp only [Bool.and_eq_true, Bool.not_eq_true'] at this
    exact this.1.1.1.2
  have hlhr : ∀ l ∈ linesOf s, hrMatches l = false := fun l hl => by
    have := hline l hl; simp only [Bool.and_eq_true, Bool.not_eq_true'] at this
    exact this.1.1.2
  have hlli : ∀ l ∈ linesOf s, liMatches l = false := fun l hl => by
    have := hline l hl; simp only [Bool.and_eq_true, Bool.not_eq_true'] at this
    exact this.1.2
  have hlol : ∀ l ∈ linesOf s, olMatches l = false := fun l hl => by
    have := hline l hl; simp only [Bool.and_eq_true, Bool.not_eq_true'] at this
    exact this.2
  have e1 : h1Pass s = s := h1Pass_id s hl1
  have e2 : h2Pass s = s := h2Pass_id s hl2
  have e3 : h3Pass s = s := h3Pass_id s hl3
  have e4 : h4Pass s = s := h4Pass_id s hl4
  have e5 : codeBlocksPass s = s := codeBlockGo_id s hbt s.length
  have e6 : inlineCodePass s = s := inlineCodeGo_id s hbt s.length
  have e7 : boldPass s = s := boldGo_id s hst s.length
  have e8 : italPass s = s := italGo_id s hst s.length
  have e9 : linksPass s = s := linkGo_id s hbr s.length
  have e10 : hrPass s = s := hrPass_id s hlhr
  have e11 : liPass s = s := liPass_id s hlli
  have e12 : ulWrapPass s = s := ulWrapPass_id s (by simpa using hli)
  have e13 : olPass s = s := olPass_id s hlol
  have e14 : tablesPass s = s := tableGo_id s hpi s.length
  rw [convertL]
  rw [e1, e2, e3, e4, e5, e6, e7, e8, e9, e10, e11, e12, e13, e14]
  apply emojiPass_id
  intro c hc
  rcases paragraphsPass_mem s c hc with h' | h' | h'
  · rw [h']; decide
  · have hsp : ("<p></p>".data : List Char) = ['<', 'p', '>', '<', '/', 'p', '>'] := rfl
    rw [hsp] at h'
    exact (by decide :
      ∀ x ∈ (['<', 'p', '>', '<', '/', 'p', '>'] : List Char), isEmojiChar x = false) c h'
  · exact hem c h'

/-! ### Emoji pass inversion -/

theorem emojiPass_self_of_output_free (y : List Char)
    (h : ∀ c ∈ emojiPass y, isEmojiChar c = false) : emojiPass y = y := by
  induction y with
  | nil => rfl
  | cons c cs ih =>
    have hstep : emojiPass (c :: cs) =
        (if isEmojiChar c then
          "<span class=\"emoji\">".data ++ [c] ++ "</span>".data
        else [c]) ++ emojiPass cs := rfl
    by_cases hc : isEmojiChar c = true
    · exfalso
      have hmem : c ∈ emojiPass (c :: cs) := by
        rw [hstep, if_pos hc]
        exact List.mem_append_left _ (List.mem_append_left _
          (List.mem_append_right _ (List.mem_singleton_self c)))
      rw [h c hmem] at hc
      cases hc
    · rw [hstep, if_neg hc,
        ih (fun d hd => h d (by rw [hstep, if_neg hc]; exact List.mem_append_right _ hd))]
      rfl

/-! ### Line preservation through the paragraph pass -/

theorem paraStep_keeps_line (b : Bool) (l : List Char) : l <:+: (paraStep b l).1 := by
  rw [paraStep]
  split
  · exact List.infix_rfl
  · split
    · exact List.infix_rfl
    · split
      · exact List.infix_rfl
      · split
        · exact ⟨"<p>".data, "</p>".data, by simp⟩
        · exact List.infix_rfl

theorem paraGo_keeps_line (b : Bool) (ls : List (List Char)) (l : List Char) (hl : l ∈ ls) :
    ∃ l' ∈ paraGo b ls, l <:+: l' := by
  induction ls generalizing b with
  | nil => cases hl
  | cons x xs ih =>
    rw [paraGo_cons]
    rcases List.mem_cons.mp hl with h | h
    · exact ⟨(paraStep b x).1, List.mem_cons_self _ _, h ▸ paraStep_keeps_line b x⟩
    · obtain ⟨l', hl', hinf⟩ := ih (paraStep b x).2 h
      exact ⟨l', List.mem_cons_of_mem _ hl', hinf⟩

theorem line_infix_paragraphsPass (s l : List Char) (hl : l ∈ linesOf s) :
    l <:+: paragraphsPass s := by
  obtain ⟨l', hl', hinf⟩ := paraGo_keeps_line false (linesOf s) l hl
  exact hinf.trans (infix_joinNl _ l' hl')

/-! ### Global replacement: the `.md"` to `.html"` fix-up -/

theorem pyReplaceGo_nil (pat rep : List Char) : ∀ n, pyReplaceGo pat rep n [] = [] := by
  intro n; cases n <;> rfl

/-- A prefix of `a ++ p ++ b` cannot be `p` when no occurrence of `p` starts
inside `a` (witnessed on the window `a ++ p.dropLast`). -/
theorem not_prefix_of_no_substr (p a b : List Char) (hp : p ≠ []) (hane : a ≠ [])
    (h : hasSubstr p (a ++ p.dropLast) = false) :
    p.isPrefixOf (a ++ p ++ b) = false := by
  by_contra hcon
  rw [Bool.not_eq_false, List.isPrefixOf_iff_prefix] at hcon
  have hplen : 1 ≤ p.length := List.length_pos.mpr hp
  have halen : 1 ≤ a.length := List.length_pos.mpr hane
  have htake : (a ++ p ++ b).take (a.length + (p.length - 1)) = a ++ p.dropLast := by
    rw [List.append_assoc, List.take_append_eq_append_take,
      List.take_of_length_le (by omega), Nat.add_sub_cancel_left,
      List.take_append_of_le_length (by omega), List.dropLast_eq_take]
  have hpre : p <+: (a ++ p ++ b).take (a.length + (p.length - 1)) := by
    rw [List.prefix_take_iff]
    exact ⟨hcon, by omega⟩
  rw [htake] at hpre
  have : hasSubstr p (a ++ p.dropLast) = true := (hasSubstr_iff_occurs _ _).mpr hpre.isInfix
  rw [h] at this
  cases this

/-- Occurrences in an appended string lie in the right part or start in the
left part (and are then visible on the window `a ++ b.take (p.length - 1)`). -/
theorem hasSubstr_append_cases (p a b : List Char) (h : hasSubstr p (a ++ b) = true) :
    hasSubstr p (a ++ b.take (p.length - 1)) = true ∨ hasSubstr p b = true := by
  induction a with
  | nil => right; simpa using h
  | cons c a' ih =>
    rw [List.cons_append, hasSubstr, Bool.or_eq_true] at h
    rcases h with h | h
    · left
      match hp : p with
      | [] => simp [hasSubstr]
      | q :: qs =>
        rw [← hp] at h ⊢
        have hcon : p <+: (c :: a') ++ b := by
          rw [← List.isPrefixOf_iff_prefix]
          simpa using h
        have hplen : 1 ≤ p.length := by rw [hp]; simp
        have htake : ((c :: a') ++ b).take ((c :: a').length + (p.length - 1)) =
            (c :: a') ++ b.take (p.length - 1) := by
          rw [List.take_append_eq_append_take, List.take_of_length_le (by simp),
            Nat.add_sub_cancel_left]
        have hpre : p <+: ((c :: a') ++ b).take ((c :: a').length + (p.length - 1)) := by
          rw [List.prefix_take_iff]
          refine ⟨hcon, ?_⟩
          simp only [List.length_cons]
          omega
        rw [htake] at hpre
        exact (hasSubstr_iff_occurs _ _).mpr hpre.isInfix
    · rcases ih h with h' | h'
      · exact Or.inl (hasSubstr_cons_of _ _ _ h')
      · exact Or.inr h'

/-- No `.md"` occurrence fits inside `.html"` followed by at most three
characters. -/
theorem mdq_not_in_window (t : List Char) (ht : t.length ≤ 3) :
    hasSubstr ".md\"".data (".html\"".data ++ t) = false := by
  match t, ht with
  | [], _ => decide
  | [a], _ => simp [hasSubstr, List.isPrefixOf,
      show (".md\"".data : List Char) = ['.', 'm', 'd', '"'] from rfl,
      show (".html\"".data : List Char) = ['.', 'h', 't', 'm', 'l', '"'] from rfl]
  | [a, b], _ => simp [hasSubstr, List.isPrefixOf,
      show (".md\"".data : List Char) = ['.', 'm', 'd', '"'] from rfl,
      show (".html\"".data : List Char) = ['.', 'h', 't', 'm', 'l', '"'] from rfl]
  | [a, b, c], _ => simp [hasSubstr, List.isPrefixOf,
      show (".md\"".data : List Char) = ['.', 'm', 'd', '"'] from rfl,
      show (".html\"".data : List Char) = ['.', 'h', 't', 'm', 'l', '"'] from rfl]

/-- A dot-free string is a prefix of the replacement output only if it was a
prefix of the input (the replacement emits `.`-headed text at every
rewrite). -/
theorem isPrefixOf_pyReplaceGo (q : List Char) (hdot : '.' ∉ q) :
    ∀ n s, q.isPrefixOf (pyReplaceGo ".md\"".data ".html\"".data n s) = true →
      q.isPrefixOf s = true := by
  induction q with
  | nil => simp
  | cons x q' ih =>
    intro n s hpre
    match n, s with
    | 0, s => exact hpre
    | n + 1, [] => rw [pyReplaceGo_nil] at hpre; simp at hpre
    | n + 1, c :: cs =>
      rw [pyReplaceGo] at hpre
      by_cases hp : (".md\"".data).isPrefixOf (c :: cs) = true
      · rw [if_pos hp] at hpre
        have hx : x = '.' := by
          have : (".html\"".data : List Char) ++
              pyReplaceGo ".md\"".data ".html\"".data n ((c :: cs).drop ".md\"".data.length) =
              '.' :: ("html\"".data ++
                pyReplaceGo ".md\"".data ".html\"".data n ((c :: cs).drop ".md\"".data.length)) := rfl
          rw [this] at hpre
          simp [List.isPrefixOf] at hpre
          exact hpre.1
        exact absurd (hx ▸ List.mem_cons_self x q') hdot
      · rw [if_neg hp] at hpre
        simp only [List.isPrefixOf] at hpre ⊢
        rw [Bool.and_eq_true] at hpre ⊢
        refine ⟨hpre.1, ?_⟩
        exact ih (fun hm => hdot (List.mem_cons_of_mem x hm)) n cs hpre.2

/-- After the fix-up scan no `.md"` occurrence remains: the replacement text
cannot recreate the pattern. -/
theorem pyReplaceGo_no_pat : ∀ n (s : List Char), s.length ≤ n →
    hasSubstr ".md\"".data (pyReplaceGo ".md\"".data ".html\"".data n s) = false := by
  intro n
  induction n with
  | zero =>
    intro s hs
    match s, hs with
    | [], _ => decide
  | succ n ih =>
    intro s hs
    match s with
    | [] => rw [pyReplaceGo_nil]; decide
    | c :: cs =>
      rw [pyReplaceGo]
      by_cases hp : (".md\"".data).isPrefixOf (c :: cs) = true
      · rw [if_pos hp]
        by_contra hcon
        rw [Bool.not_eq_false] at hcon
        rcases hasSubstr_append_cases _ _ _ hcon with h | h
        · rw [mdq_not_in_window _ (by simp)] at h
          cases h
        · have hrec := ih ((c :: cs).drop (".md\"".data).length)
            (by
              simp only [List.length_drop, List.length_cons]
              simp only [List.length_cons] at hs
              omega)
          rw [hrec] at h
          cases h
      · rw [if_neg hp]
        rw [hasSubstr, Bool.or_eq_false_iff]
        constructor
        · by_contra hcon
          rw [Bool.not_eq_false] at hcon
          have hshape : (".md\"".data : List Char) = '.' :: "md\"".data := rfl
          rw [hshape] at hcon hp
          simp only [List.isPrefixOf, Bool.and_eq_true] at hcon hp
          refine hp ⟨hcon.1, ?_⟩
          exact isPrefixOf_pyReplaceGo "md\"".data (by decide) n cs hcon.2
        · exact ih cs (by simpa using Nat.le_of_succ_le_succ (by simpa using hs))

/-- The fix-up leaves no `.md"` in any document. -/
theorem pyReplace_no_mdq (s : List Char) :
    hasSubstr ".md\"".data (pyReplace ".md\"".data ".html\"".data s) = false :=
  pyReplaceGo_no_pat s.length s le_rfl

theorem pyReplaceGo_fuel (pat rep : List Char) (hpat : pat ≠ []) :
    ∀ n m (s : List Char), s.length ≤ n → s.length ≤ m →
      pyReplaceGo pat rep n s = pyReplaceGo pat rep m s := by
  intro n
  induction n with
  | zero =>
    intro m s hn hm
    match s, hn with
    | [], _ => rw [pyReplaceGo_nil, pyReplaceGo_nil]
  | succ n ih =>
    intro m s hn hm
    match s with
    | [] => rw [pyReplaceGo_nil, pyReplaceGo_nil]
    | c :: cs =>
      match m with
      | 0 => simp at hm
      | m + 1 =>
        rw [pyReplaceGo, pyReplaceGo]
        have hplen : 1 ≤ pat.length := List.length_pos.mpr hpat
        by_cases hp : pat.isPrefixOf (c :: cs) = true
        · rw [if_pos hp, if_pos hp]
          rw [ih m ((c :: cs).drop pat.length)
            (by
              simp only [List.length_drop, List.length_cons]
              simp only [List.length_cons] at hn
              omega)
            (by
              simp only [List.length_drop, List.length_cons]
              simp only [List.length_cons] at hm
              omega)]
        · rw [if_neg (by simp [hp]), if_neg (by simp [hp])]
          rw [ih m cs (by simpa using Nat.le_of_succ_le_succ (by simpa using hn))
            (by simpa using Nat.le_of_succ_le_succ (by simpa using hm))]

theorem pyReplace_cons_not (pat rep : List Char) (c : Char) (s : List Char)
    (h : pat.isPrefixOf (c :: s) = false) :
    pyReplace pat rep (c :: s) = c :: pyReplace pat rep s := by
  rw [pyReplace, pyReplace]
  show pyReplaceGo pat rep (s.length + 1) (c :: s) = _
  rw [pyReplaceGo, if_neg (by simp [h])]

theorem pyReplace_head (pat rep b : List Char) (hpat : pat ≠ []) :
    pyReplace pat rep (pat ++ b) = rep ++ pyReplace pat rep b := by
  match pat, hpat with
  | q :: qs, _ =>
    rw [pyReplace, pyReplace]
    have hsh : (q :: qs) ++ b = q :: (qs ++ b) := rfl
    rw [hsh]
    show pyReplaceGo (q :: qs) rep ((qs ++ b).length + 1) (q :: (qs ++ b)) = _
    rw [pyReplaceGo, if_pos (by rw [← hsh]; simp [List.prefix_append])]
    have hdrop : (q :: (qs ++ b)).drop (q :: qs).length = b := by
      rw [← hsh]
      exact List.drop_left (q :: qs) b
    rw [hdrop]
    rw [pyReplaceGo_fuel (q :: qs) rep (by simp) _ b.length b (by simp) le_rfl]

/-- Every occurrence of the pattern is rewritten: splitting the document at
an occurrence with none earlier, the fix-up keeps the earlier text, replaces
the occurrence, and recurses on the rest. -/
theorem pyReplace_append_occurrence (a b : List Char)
    (ha : hasSubstr ".md\"".data (a ++ ".md".data) = false) :
    pyReplace ".md\"".data ".html\"".data (a ++ ".md\"".data ++ b) =
      a ++ ".html\"".data ++ pyReplace ".md\"".data ".html\"".data b := by
  induction a with
  | nil =>
    rw [List.nil_append, List.nil_append, pyReplace_head _ _ _ (by decide)]
  | cons c a' ih =>
    have hsh : (c :: a') ++ ".md\"".data ++ b = c :: (a' ++ ".md\"".data ++ b) := by simp
    have hnp : (".md\"".data).isPrefixOf ((c :: a') ++ ".md\"".data ++ b) = false := by
      refine not_prefix_of_no_substr _ _ _ (by decide) (by simp) ?_
      rw [show (".md\"".data : List Char).dropLast = ".md".data from by decide]
      exact ha
    rw [hsh] at hnp
    rw [hsh, pyReplace_cons_not _ _ _ _ hnp]
    have ha' : hasSubstr ".md\"".data (a' ++ ".md".data) = false := by
      have : (c :: a') ++ ".md".data = c :: (a' ++ ".md".data) := by simp
      rw [this, hasSubstr, Bool.or_eq_false_iff] at ha
      exact ha.2
    rw [ih ha']
    simp

/-! ### Title extraction -/

theorem h1Search_none (s : List Char) (h : hasSubstr "<h1>".data s = false) :
    h1Search s = none := by
  induction s with
  | nil => rfl
  | cons c cs ih =>
    rw [hasSubstr, Bool.or_eq_false_iff] at h
    rw [h1Search, if_neg (by simp [h.1]), ih h.2]

theorem h1Close_append (t b : List Char) (ht1 : t ≠ []) (ht2 : '\n' ∉ t)
    (ht3 : hasSubstr "</h1>".data (t ++ "</h1".data) = false) :
    h1Close (t ++ ("</h1>".data ++ b)) = some (t, b) := by
  induction t with
  | nil => exact absurd rfl ht1
  | cons x t' ih =>
    have hx : ¬ (x = '\n') := fun hc => ht2 (hc ▸ List.mem_cons_self x t')
    match t' with
    | [] =>
      show h1Close (x :: ("</h1>".data ++ b)) = some ([x], b)
      rw [h1Close, if_neg hx, if_pos (by simp [List.prefix_append])]
      rw [List.drop_left' (by decide : ("</h1>".data : List Char).length = 5)]
    | y :: t'' =>
      show h1Close (x :: ((y :: t'') ++ ("</h1>".data ++ b))) = some (x :: y :: t'', b)
      rw [h1Close, if_neg hx]
      have hnp : ("</h1>".data).isPrefixOf ((y :: t'') ++ ("</h1>".data ++ b)) = false := by
        have := not_prefix_of_no_substr "</h1>".data (y :: t'') b (by decide) (by simp) ?_
        · rw [List.append_assoc] at this
          exact this
        · rw [show ("</h1>".data : List Char).dropLast = "</h1".data from by decide]
          have h3 := ht3
          rw [show (x :: y :: t'') ++ "</h1".data = x :: ((y :: t'') ++ "</h1".data) from rfl,
            hasSubstr, Bool.or_eq_false_iff] at h3
          exact h3.2
      rw [if_neg (by simp only [hnp]; exact Bool.false_ne_true)]
      have ht2' : '\n' ∉ y :: t'' := fun hc => ht2 (List.mem_cons_of_mem x hc)
      have ht3' : hasSubstr "</h1>".data ((y :: t'') ++ "</h1".data) = false := by
        have h3 := ht3
        rw [show (x :: y :: t'') ++ "</h1".data = x :: ((y :: t'') ++ "</h1".data) from rfl,
          hasSubstr, Bool.or_eq_false_iff] at h3
        exact h3.2
      rw [ih (by simp) ht2' ht3']

theorem h1Search_append (a t b : List Char)
    (ha : hasSubstr "<h1>".data (a ++ "<h1".data) = false)
    (ht1 : t ≠ []) (ht2 : '\n' ∉ t)
    (ht3 : hasSubstr "</h1>".data (t ++ "</h1".data) = false) :
    h1Search (a ++ ("<h1>".data ++ (t ++ ("</h1>".data ++ b)))) = some t := by
  induction a with
  | nil =>
    show h1Search ('<' :: ("h1>".data ++ (t ++ ("</h1>".data ++ b)))) = some t
    rw [h1Search]
    rw [if_pos (by
      show ("<h1>".data).isPrefixOf ("<h1>".data ++ (t ++ ("</h1>".data ++ b))) = true
      simp [List.prefix_append])]
    rw [show (("h1>".data ++ (t ++ ("</h1>".data ++ b))) : List Char).drop 3 =
        t ++ ("</h1>".data ++ b) from List.drop_left' (by decide)]
    rw [h1Close_append t b ht1 ht2 ht3]
  | cons c a' ih =>
    show h1Search (c :: (a' ++ ("<h1>".data ++ (t ++ ("</h1>".data ++ b))))) = some t
    have hnp : ("<h1>".data).isPrefixOf
        ((c :: a') ++ ("<h1>".data ++ (t ++ ("</h1>".data ++ b)))) = false := by
      have := not_prefix_of_no_substr "<h1>".data (c :: a')
        (t ++ ("</h1>".data ++ b)) (by decide) (by simp) ?_
      · rw [List.append_assoc] at this
        exact this
      · rw [show ("<h1>".data : List Char).dropLast = "<h1".data from by decide]
        exact ha
    have hnp2 : ("<h1>".data).isPrefixOf
        (c :: (a' ++ ("<h1>".data ++ (t ++ ("</h1>".data ++ b))))) = false := by
      rw [← List.cons_append]
      exact hnp
    rw [h1Search, if_neg (by simp only [hnp2]; exact Bool.false_ne_true)]
    have ha' : hasSubstr "<h1>".data (a' ++ "<h1".data) = false := by
      have h3 := ha
      rw [show (c :: a') ++ "<h1".data = c :: (a' ++ "<h1".data) from rfl,
        hasSubstr, Bool.or_eq_false_iff] at h3
      exact h3.2
    exact ih ha'

/-! ### Character-class facts -/

theorem alnum_toNat_le (c : Char) (h : c.isAlphanum = true) : c.toNat ≤ 122 := by
  rw [Char.isAlphanum, Char.isAlpha, Char.isUpper, Char.isLower, Char.isDigit] at h
  simp only [Bool.or_eq_true, Bool.and_eq_true, decide_eq_true_eq] at h
  rcases h with (⟨-, h2⟩ | ⟨-, h2⟩) | ⟨-, h2⟩
  · exact le_trans (UInt32.toNat_le_of_le (by norm_num) h2) (by norm_num)
  · exact le_trans (UInt32.toNat_le_of_le (by norm_num) h2) (by norm_num)
  · exact le_trans (UInt32.toNat_le_of_le (by norm_num) h2) (by norm_num)

/-- Inert characters (alphanumeric, space or newline) are never emoji. -/
theorem inert_not_emoji (c : Char) (h : inertChar c = true) : isEmojiChar c = false := by
  rw [inertChar, Bool.or_eq_true, Bool.or_eq_true] at h
  rcases h with (ha | hs) | hn
  · have hb := alnum_toNat_le c ha
    rw [isEmojiChar]
    simp only [Bool.or_eq_false_iff, Bool.and_eq_false_iff, decide_eq_false_iff_not, not_le]
    exact ⟨⟨Or.inl (by omega), Or.inl (by omega)⟩, Or.inl (by omega)⟩
  · have : c = ' ' := by simpa using hs
    rw [this]; decide
  · have : c = '\n' := by simpa using hn
    rw [this]; decide

theorem inert_ne (c x : Char) (h : inertChar c = true) (hx : inertChar x = false) :
    c ≠ x := fun he => by rw [he, hx] at h; cases h

theorem word_ne (c x : Char) (h : isWordChar c = true) (hx : isWordChar x = false) :
    c ≠ x := fun he => by rw [he, hx] at h; cases h

/-! ### Further list helpers -/

theorem mem_of_getLast_some (l : List Char) (c : Char) (h : l.getLast? = some c) :
    c ∈ l := by
  match l with
  | [] => cases h
  | [d] =>
    have : d = c := by simpa using h
    rw [this]; exact List.mem_singleton_self c
  | d :: d' :: t =>
    rw [List.getLast?_cons_cons] at h
    exact List.mem_cons_of_mem d (mem_of_getLast_some (d' :: t) c h)

theorem mem_of_head_some (l : List Char) (c : Char) (h : l.head? = some c) : c ∈ l := by
  match l with
  | [] => cases h
  | d :: t =>
    have : d = c := by simpa using h
    rw [this] at *
    exact List.mem_cons_self c t

theorem mem_pyStrip (l : List Char) (c : Char) (h : c ∈ pyStrip l) : c ∈ l := by
  rw [pyStrip, pyStripR, List.mem_reverse] at h
  have h2 := (List.dropWhile_sublist _).mem h
  rw [List.mem_reverse, pyStripL] at h2
  exact (List.dropWhile_sublist _).mem h2

theorem pyStripR_append (a b : List Char) :
    pyStripR (a ++ b) =
      if (pyStripR b).isEmpty then pyStripR a else a ++ pyStripR b := by
  by_cases hb : b.reverse.dropWhile isPySpace = []
  · have h1 : (pyStripR b).isEmpty = true := by rw [pyStripR, hb]; rfl
    rw [if_pos h1, pyStripR, pyStripR, List.reverse_append, List.dropWhile_append, hb]
    simp
  · have h1 : ¬ ((pyStripR b).isEmpty = true) := by
      rw [pyStripR]
      cases hdw : b.reverse.dropWhile isPySpace with
      | nil => exact absurd hdw hb
      | cons x xs => simp
    rw [if_neg h1, pyStripR, pyStripR, List.reverse_append, List.dropWhile_append,
      if_neg (by simpa using hb), List.reverse_append, List.reverse_reverse]

theorem takeWhile_word_tag (tag r : List Char) (h : ∀ c ∈ tag, isWordChar c = true) :
    (tag ++ '\n' :: r).takeWhile isWordChar = tag := by
  induction tag with
  | nil =>
    rw [List.nil_append, List.takeWhile_cons,
      if_neg (by rw [show isWordChar '\n' = false from by decide]; simp)]
  | cons c cs ih =>
    rw [List.cons_append, List.takeWhile_cons, if_pos (h c (List.mem_cons_self c cs)),
      ih (fun d hd => h d (List.mem_cons_of_mem c hd))]

theorem hasSubstr_false_head (p : List Char) (c0 : Char) (hp : p.head? = some c0)
    (a b : List Char) (ha : ∀ c ∈ a, c ≠ c0) (hb : hasSubstr p b = false) :
    hasSubstr p (a ++ b) = false := by
  induction a with
  | nil => simpa using hb
  | cons c a' ih =>
    rw [List.cons_append, hasSubstr, Bool.or_eq_false_iff]
    refine ⟨?_, ih (fun d hd => ha d (List.mem_cons_of_mem c hd))⟩
    cases p with
    | nil => cases hp
    | cons q p' =>
      have hq : q = c0 := by simpa using hp
      have hc : c ≠ c0 := ha c (List.mem_cons_self c a')
      simp only [List.isPrefixOf, Bool.and_eq_false_iff]
      exact Or.inl (beq_eq_false_iff_ne.mpr (hq ▸ fun he => hc he.symm))

theorem codeBlockGo_nil : ∀ n, codeBlockGo n [] = [] := by
  intro n; cases n <;> rfl

theorem tableGo_nil : ∀ n, tableGo n [] = [] := by
  intro n; cases n <;> rfl

theorem headerMatches_false_of_ne (hs l : List Char) (hh : hs.head? = some '#')
    (h : ∀ c ∈ l, c ≠ '#') : headerMatches hs l = false := by
  cases hs with
  | nil => cases hh
  | cons q hs' =>
    have hq : q = '#' := by simpa using hh
    cases l with
    | nil => rw [headerMatches]; simp [List.isPrefixOf]
    | cons c t =>
      rw [headerMatches]
      have hc : c ≠ '#' := h c (List.mem_cons_self c t)
      apply Bool.and_eq_false_iff.mpr
      left
      simp only [List.isPrefixOf, Bool.and_eq_false_iff]
      exact Or.inl (beq_eq_false_iff_ne.mpr (hq ▸ fun he => hc he.symm))

theorem hrMatches_false_of_ne (l : List Char) (h : ∀ c ∈ l, c ≠ '-') :
    hrMatches l = false := by
  cases l with
  | nil => decide
  | cons c t =>
    rw [hrMatches]
    apply Bool.and_eq_false_iff.mpr
    right
    rw [List.all_cons]
    apply Bool.and_eq_false_iff.mpr
    left
    exact decide_eq_false (h c (List.mem_cons_self c t))

theorem liMatches_false_of_ne (l : List Char) (h : ∀ c ∈ l, c ≠ '-') :
    liMatches l = false := by
  cases l with
  | nil => decide
  | cons c t =>
    rw [liMatches]
    apply Bool.and_eq_false_iff.mpr
    left
    have hc : c ≠ '-' := h c (List.mem_cons_self c t)
    rw [show ("- ".data : List Char) = ['-', ' '] from rfl]
    simp only [List.isPrefixOf, Bool.and_eq_false_iff]
    exact Or.inl (beq_eq_false_iff_ne.mpr (fun he => hc he.symm))

theorem olMatches_false_of_ne (l : List Char) (h : ∀ c ∈ l, c ≠ '.') :
    olMatches l = false := by
  simp only [olMatches]
  apply Bool.and_eq_false_iff.mpr
  left
  apply Bool.and_eq_false_iff.mpr
  right
  cases hp : (". ".data).isPrefixOf (l.drop (l.takeWhile Char.isDigit).length) with
  | false => rfl
  | true =>
    exfalso
    have hpre := List.isPrefixOf_iff_prefix.mp hp
    have hdot : '.' ∈ l.drop (l.takeWhile Char.isDigit).length :=
      hpre.sublist.subset (by decide)
    exact h '.' (List.mem_of_mem_drop hdot) rfl

/-! ### Absence of list-item markup in code-block output -/

theorem chain_left_total {R : Char → Char → Prop} (l : List Char)
    (h : ∀ x ∈ l, ∀ y, R x y) : List.Chain' R l := by
  induction l with
  | nil => exact List.chain'_nil
  | cons x xs ih =>
    rw [List.chain'_cons']
    exact ⟨fun y _ => h x (List.mem_cons_self x xs) y,
      ih (fun z hz y => h z (List.mem_cons_of_mem x hz) y)⟩

theorem hasSubstr_li_of_chain (s : List Char)
    (h : List.Chain' (fun x y => x ≠ '<' ∨ y ≠ 'l') s) :
    hasSubstr "<li>".data s = false := by
  induction s with
  | nil => decide
  | cons c cs ih =>
    rw [hasSubstr, Bool.or_eq_false_iff]
    obtain ⟨h1, h2⟩ := List.chain'_cons'.mp h
    refine ⟨?_, ih h2⟩
    rw [show ("<li>".data : List Char) = ['<', 'l', 'i', '>'] from rfl]
    cases cs with
    | nil => simp [List.isPrefixOf]
    | cons d ds =>
      by_cases hc : c = '<'
      · have hd : d ≠ 'l' := by
          rcases h1 d rfl with hx | hy
          · exact absurd hc hx
          · exact hy
        rw [hc]
        simp only [List.isPrefixOf, Bool.and_eq_false_iff]
        exact Or.inr (Or.inl (beq_eq_false_iff_ne.mpr (fun he => hd he.symm)))
      · simp only [List.isPrefixOf, Bool.and_eq_false_iff]
        exact Or.inl (beq_eq_false_iff_ne.mpr (fun he => hc he.symm))

/-! ### Paragraph-pass fixed points -/

theorem startsWithAny_false_of_head (ps : List (List Char)) (st : List Char)
    (hps : ∀ p ∈ ps, p.head? = some '<')
    (h : ∀ c, st.head? = some c → c ≠ '<') :
    startsWithAny ps st = false := by
  rw [startsWithAny, List.any_eq_false]
  intro p hp
  cases p with
  | nil => exact absurd (hps [] hp) (by simp)
  | cons q p' =>
    have hq : q = '<' := by simpa using hps (q :: p') hp
    cases st with
    | nil => simp [List.isPrefixOf]
    | cons c t =>
      have hc : c ≠ '<' := h c rfl
      simp only [List.isPrefixOf, Bool.and_eq_true, not_and]
      intro hqc
      rw [beq_iff_eq] at hqc
      rw [hq] at hqc
      exact fun hrest => hc hqc.symm

theorem startsWithAny_open_false (st : List Char)
    (h : ∀ c, st.head? = some c → c ≠ '<') :
    startsWithAny blockOpenPrefixes st = false :=
  startsWithAny_false_of_head _ st (by decide) h

theorem startsWithAny_close_false (st : List Char)
    (h : ∀ c, st.head? = some c → c ≠ '<') :
    startsWithAny blockClosePrefixes st = false :=
  startsWithAny_false_of_head _ st (by decide) h

theorem paraStep_of_open (flag : Bool) (l : List Char)
    (h : startsWithAny blockOpenPrefixes (pyStrip l) = true) :
    paraStep flag l = (l, true) := by
  simp only [paraStep]
  rw [if_pos h]

theorem paraStep_true_keep (l : List Char)
    (ho : startsWithAny blockOpenPrefixes (pyStrip l) = false)
    (hc : startsWithAny blockClosePrefixes (pyStrip l) = false) :
    paraStep true l = (l, true) := by
  simp only [paraStep]
  rw [if_neg (by simp [ho]), if_neg (by simp [hc])]
  by_cases he : (pyStrip l).isEmpty = true
  · rw [if_pos he]
  · rw [if_neg he, if_neg (by simp)]

theorem paraStep_true_inert (l : List Char) (h : ∀ ch ∈ l, ch ≠ '<') :
    paraStep true l = (l, true) :=
  paraStep_true_keep l
    (startsWithAny_open_false _
      (fun c hc => h c (mem_pyStrip l c (mem_of_head_some _ c hc))))
    (startsWithAny_close_false _
      (fun c hc => h c (mem_pyStrip l c (mem_of_head_some _ c hc))))

theorem paraStep_true_close (c : List Char) (h : ∀ ch ∈ c, ch ≠ '<') :
    paraStep true (c ++ "</code></pre>".data) = (c ++ "</code></pre>".data, true) := by
  by_cases hdw : (c.dropWhile isPySpace).isEmpty = true
  · have h1 : pyStrip (c ++ "</code></pre>".data) = "</code></pre>".data := by
      rw [pyStrip, pyStripL, List.dropWhile_append, if_pos hdw]
      decide
    exact paraStep_true_keep _ (by rw [h1]; decide) (by rw [h1]; decide)
  · obtain ⟨d, t, hdt⟩ : ∃ d t, c.dropWhile isPySpace = d :: t := by
      cases hx : c.dropWhile isPySpace with
      | nil => rw [hx] at hdw; simp at hdw
      | cons d t => exact ⟨d, t, rfl⟩
    have hd : d ≠ '<' :=
      h d ((List.dropWhile_sublist _).mem (hdt ▸ List.mem_cons_self d t))
    have h1 : pyStrip (c ++ "</code></pre>".data) =
        d :: (t ++ "</code></pre>".data) := by
      rw [pyStrip, pyStripL, List.dropWhile_append, if_neg (by rw [hdt]; simp), hdt,
        List.cons_append]
      apply pyStripR_of_getLast
      intro x hx
      rw [← List.cons_append, List.getLast?_append] at hx
      have : x = '>' := by simpa using hx.symm
      rw [this]; decide
    refine paraStep_true_keep _ ?_ ?_
    · apply startsWithAny_open_false
      intro x hx
      rw [h1] at hx
      have : d = x := by simpa using hx
      exact this ▸ hd
    · apply startsWithAny_close_false
      intro x hx
      rw [h1] at hx
      have : d = x := by simpa using hx
      exact this ▸ hd

theorem paraStep_open_pre (flag : Bool) (c : List Char) :
    paraStep flag ("<pre><code>".data ++ c) = ("<pre><code>".data ++ c, true) := by
  apply paraStep_of_open
  have hL : pyStripL ("<pre><code>".data ++ c) = "<pre><code>".data ++ c := by
    rw [show ("<pre><code>".data ++ c : List Char) = '<' :: ("pre><code>".data ++ c)
      from rfl]
    exact pyStripL_cons_of_nonspace _ _ (by decide)
  rw [pyStrip, hL, pyStripR_append]
  by_cases he : (pyStripR c).isEmpty = true
  · rw [if_pos he]; decide
  · rw [if_neg he, startsWithAny]
    apply List.any_eq_true.mpr
    refine ⟨"<pre>".data, by decide, ?_⟩
    rw [List.isPrefixOf_iff_prefix]
    exact List.IsPrefix.trans (by decide) (List.prefix_append _ _)

theorem paraGo_fix (ls : List (List Char)) (h : ∀ l ∈ ls, paraStep true l = (l, true)) :
    paraGo true ls = ls := by
  induction ls with
  | nil => rfl
  | cons l ls ih =>
    rw [paraGo_cons, h l (List.mem_cons_self l ls)]
    show l :: paraGo true ls = l :: ls
    rw [ih (fun x hx => h x (List.mem_cons_of_mem l hx))]

/-! ### Decorating the first and last line of a joined line list -/

theorem wrapEnd_joinNl (b : List Char) (ls : List (List Char)) :
    joinNl (wrapEnd b ls) = joinNl ls ++ b := by
  induction ls with
  | nil => simp [wrapEnd, joinNl_single, joinNl, List.intercalate]
  | cons l ls ih =>
    cases ls with
    | nil => rw [show wrapEnd b [l] = [l ++ b] from rfl, joinNl_single, joinNl_single]
    | cons l' ls' =>
      rw [show wrapEnd b (l :: l' :: ls') = l :: wrapEnd b (l' :: ls') from rfl]
      obtain ⟨x, xs, hx⟩ : ∃ x xs, wrapEnd b (l' :: ls') = x :: xs := by
        cases ls' with
        | nil => exact ⟨l' ++ b, [], rfl⟩
        | cons y ys => exact ⟨l', wrapEnd b (y :: ys), rfl⟩
      rw [hx, joinNl_cons₂, ← hx, ih, joinNl_cons₂]
      simp

theorem wrapFL_joinNl (a b : List Char) (ls : List (List Char)) :
    joinNl (wrapFL a b ls) = a ++ joinNl ls ++ b := by
  cases ls with
  | nil => simp [wrapFL, joinNl_single, joinNl, List.intercalate]
  | cons l ls' =>
    cases ls' with
    | nil =>
      rw [show wrapFL a b [l] = [a ++ (l ++ b)] from rfl, joinNl_single, joinNl_single]
      simp
    | cons l' ls'' =>
      rw [show wrapFL a b (l :: l' :: ls'') = (a ++ l) :: wrapEnd b (l' :: ls'')
        from rfl]
      obtain ⟨x, xs, hx⟩ : ∃ x xs, wrapEnd b (l' :: ls'') = x :: xs := by
        cases ls'' with
        | nil => exact ⟨l' ++ b, [], rfl⟩
        | cons y ys => exact ⟨l', wrapEnd b (y :: ys), rfl⟩
      rw [hx, joinNl_cons₂, ← hx, wrapEnd_joinNl, joinNl_cons₂]
      simp

theorem wrapEnd_mem (b : List Char) (ls : List (List Char)) (l : List Char)
    (h : l ∈ wrapEnd b ls) :
    l ∈ ls ∨ ∃ c, (c ∈ ls ∨ c = []) ∧ l = c ++ b := by
  induction ls with
  | nil =>
    rw [show wrapEnd b [] = [b] from rfl, List.mem_singleton] at h
    exact Or.inr ⟨[], Or.inr rfl, by simpa using h⟩
  | cons x xs ih =>
    cases xs with
    | nil =>
      rw [show wrapEnd b [x] = [x ++ b] from rfl, List.mem_singleton] at h
      exact Or.inr ⟨x, Or.inl (List.mem_singleton_self x), h⟩
    | cons y ys =>
      rw [show wrapEnd b (x :: y :: ys) = x :: wrapEnd b (y :: ys) from rfl] at h
      rcases List.mem_cons.mp h with h | h
      · exact Or.inl (h ▸ List.mem_cons_self x _)
      · rcases ih h with h' | ⟨c, hc, hl⟩
        · exact Or.inl (List.mem_cons_of_mem x h')
        · refine Or.inr ⟨c, ?_, hl⟩
          rcases hc with hc | hc
          · exact Or.inl (List.mem_cons_of_mem x hc)
          · exact Or.inr hc

/-- The paragraph pass leaves a code-block fragment unchanged: its first line
opens a block (prefix `<pre>`), so the flag is raised and every later line of
the fragment is passed through untouched. -/
theorem paragraphs_pre_code (content : List Char)
    (h : ∀ ch ∈ content, inertChar ch = true) :
    paragraphsPass ("<pre><code>".data ++ content ++ "</code></pre>".data) =
      "<pre><code>".data ++ content ++ "</code></pre>".data := by
  have hnl : ∀ l ∈ linesOf content, '\n' ∉ l := linesOf_no_newline content
  have hlt : ∀ l ∈ linesOf content, ∀ ch ∈ l, ch ≠ '<' := fun l hl ch hc =>
    inert_ne ch '<' (h ch (mem_of_mem_splitOnChar '\n' content l ch hl hc)) (by decide)
  have hw : "<pre><code>".data ++ content ++ "</code></pre>".data =
      joinNl (wrapFL "<pre><code>".data "</code></pre>".data (linesOf content)) := by
    rw [wrapFL_joinNl, joinNl_linesOf]
  have hwnl : ∀ l ∈ wrapFL "<pre><code>".data "</code></pre>".data (linesOf content),
      '\n' ∉ l := by
    intro l hl
    cases hc2 : linesOf content with
    | nil => exact absurd hc2 (linesOf_ne_nil content)
    | cons c0 rest =>
      rw [hc2] at hl hnl
      cases rest with
      | nil =>
        rw [show wrapFL "<pre><code>".data "</code></pre>".data [c0] =
          ["<pre><code>".data ++ (c0 ++ "</code></pre>".data)] from rfl,
          List.mem_singleton] at hl
        rw [hl]
        intro hmem
        rcases List.mem_append.mp hmem with hm | hm
        · revert hm; decide
        · rcases List.mem_append.mp hm with hm' | hm'
          · exact hnl c0 (List.mem_singleton_self c0) hm'
          · revert hm'; decide
      | cons c1 rest' =>
        rw [show wrapFL "<pre><code>".data "</code></pre>".data (c0 :: c1 :: rest') =
          ("<pre><code>".data ++ c0) :: wrapEnd "</code></pre>".data (c1 :: rest')
          from rfl] at hl
        rcases List.mem_cons.mp hl with hm | hm
        · rw [hm]
          intro hmem
          rcases List.mem_append.mp hmem with hm' | hm'
          · revert hm'; decide
          · exact hnl c0 (List.mem_cons_self c0 _) hm'
        · rcases wrapEnd_mem _ _ _ hm with hm' | ⟨c, hc, rfl⟩
          · exact hnl l (List.mem_cons_of_mem c0 hm')
          · intro hmem
            rcases List.mem_append.mp hmem with hm'' | hm''
            · rcases hc with hc | hc
              · exact hnl c (List.mem_cons_of_mem c0 hc) hm''
              · rw [hc] at hm''; cases hm''
            · revert hm''; decide
  rw [hw, paragraphsPass, linesOf_joinNl _ hwnl]
  · have hpg : paraGo false
        (wrapFL "<pre><code>".data "</code></pre>".data (linesOf content)) =
        wrapFL "<pre><code>".data "</code></pre>".data (linesOf content) := by
      cases hc2 : linesOf content with
      | nil => exact absurd hc2 (linesOf_ne_nil content)
      | cons c0 rest =>
        rw [hc2] at hlt
        cases rest with
        | nil =>
          rw [show wrapFL "<pre><code>".data "</code></pre>".data [c0] =
            ["<pre><code>".data ++ (c0 ++ "</code></pre>".data)] from rfl,
            paraGo_cons, paraStep_open_pre]
          rfl
        | cons c1 rest' =>
          rw [show wrapFL "<pre><code>".data "</code></pre>".data (c0 :: c1 :: rest') =
            ("<pre><code>".data ++ c0) :: wrapEnd "</code></pre>".data (c1 :: rest')
            from rfl, paraGo_cons, paraStep_open_pre]
          show _ :: paraGo true (wrapEnd "</code></pre>".data (c1 :: rest')) = _
          rw [paraGo_fix]
          intro l hl
          rcases wrapEnd_mem _ _ _ hl with hm | ⟨c, hc, rfl⟩
          · exact paraStep_true_inert l (hlt l (List.mem_cons_of_mem c0 hm))
          · apply paraStep_true_close
            rcases hc with hc | hc
            · exact hlt c (List.mem_cons_of_mem c0 hc)
            · rw [hc]; intro ch hch; cases hch
    rw [hpg]
  · intro hcon
    cases hc2 : linesOf content with
    | nil => exact absurd hc2 (linesOf_ne_nil content)
    | cons c0 rest =>
      rw [hc2] at hcon
      cases rest with
      | nil => cases hcon
      | cons c1 rest' => cases hcon

/-! ### Evaluating the code-block pass on a fenced block -/

theorem codeBlockGo_fence (n : Nat) (tag content rest : List Char)
    (htag : ∀ c ∈ tag, isWordChar c = true)
    (hsplit : splitAtSub "```".data (content ++ "```".data) = some (content, rest)) :
    codeBlockGo (n + 1) ("```".data ++ (tag ++ ('\n' :: (content ++ "```".data)))) =
      "<pre><code>".data ++ content ++ "</code></pre>".data ++ codeBlockGo n rest := by
  simp only [] at hsplit
  simp only [codeBlockGo, List.cons_append, List.nil_append, List.isPrefixOf,
    beq_self_eq_true, Bool.and_self, if_true]
  simp only [List.append_eq, List.cons_append, List.nil_append, List.drop_succ_cons,
    List.drop_zero]
  rw [takeWhile_word_tag tag _ htag]
  rw [List.drop_left]
  simp only []
  rw [hsplit]

theorem codeBlocks_fence (tag content : List Char)
    (htag : ∀ c ∈ tag, isWordChar c = true)
    (hbt : ∀ c ∈ content, c ≠ btChar) :
    codeBlocksPass ("```".data ++ (tag ++ ('\n' :: (content ++ "```".data)))) =
      "<pre><code>".data ++ content ++ "</code></pre>".data := by
  have hwin : hasSubstr "```".data (content ++ ("```".data).dropLast) = false :=
    hasSubstr_false_head "```".data btChar (by decide) content _ hbt (by decide)
  have hsplit := splitAtSub_append "```".data content [] (by decide) hwin
  rw [List.append_nil] at hsplit
  rw [codeBlocksPass]
  have hlen : ("```".data ++ (tag ++ ('\n' :: (content ++ "```".data)))).length =
      (tag.length + content.length + 6) + 1 := by
    simp only [List.length_append, List.length_cons, List.length_nil]
    omega
  rw [hlen, codeBlockGo_fence _ tag content [] htag hsplit, codeBlockGo_nil,
    List.append_nil]

/-! ### Evaluating the table pass on a well-formed table block -/

theorem takeLine_append (l r : List Char) (h : '\n' ∉ l) :
    takeLine (l ++ '\n' :: r) = some (l, r) := by
  induction l with
  | nil => rw [List.nil_append, takeLine, if_pos rfl]
  | cons c t ih =>
    rw [List.cons_append, takeLine,
      if_neg (fun hc : c = '\n' => h (hc ▸ List.mem_cons_self c t)),
      ih (fun hm => h (List.mem_cons_of_mem c hm))]

theorem flatMap_pipe_getLast (cells : List (List Char)) (h : cells ≠ []) :
    (cells.flatMap (fun c => c ++ ['|'])).getLast? = some '|' := by
  induction cells with
  | nil => exact absurd rfl h
  | cons c cs ih =>
    cases cs with
    | nil => simp
    | cons c2 cs2 =>
      rw [List.flatMap_cons, List.getLast?_append, ih (by simp)]
      rfl

theorem rowLine_getLast (cells : List (List Char)) (h : cells ≠ []) :
    (rowLine cells).getLast? = some '|' := by
  rw [rowLine, show ('|' :: cells.flatMap (fun c => c ++ ['|'])) =
    ['|'] ++ cells.flatMap (fun c => c ++ ['|']) from rfl, List.getLast?_append,
    flatMap_pipe_getLast cells h]
  rfl

theorem rowLine_no_newline (cells : List (List Char))
    (h : ∀ cell ∈ cells, '\n' ∉ cell) : '\n' ∉ rowLine cells := by
  rw [rowLine]
  intro hm
  rcases List.mem_cons.mp hm with hm' | hm'
  · exact absurd hm' (by decide)
  · rw [List.mem_flatMap] at hm'
    obtain ⟨cell, hcell, hmem⟩ := hm'
    rcases List.mem_append.mp hmem with h2 | h2
    · exact h cell hcell h2
    · rw [List.mem_singleton] at h2
      exact absurd h2 (by decide)

theorem isRowLine_rowLine (cells : List (List Char)) (h0 : cells ≠ [])
    (h1 : ∀ cell ∈ cells, cell ≠ []) : isRowLine (rowLine cells) = true := by
  cases cells with
  | nil => exact absurd rfl h0
  | cons c cs =>
    have hg : (rowLine (c :: cs)).getLast? = some '|' :=
      rowLine_getLast (c :: cs) (by simp)
    have hlen : (rowLine (c :: cs)).length ≥ 3 := by
      rw [rowLine, List.length_cons, List.flatMap_cons, List.length_append,
        List.length_append]
      have : c.length ≥ 1 := List.length_pos.mpr (h1 c (List.mem_cons_self c cs))
      simp only [List.length_singleton]
      omega
    rw [isRowLine, hg]
    rw [show (rowLine (c :: cs)).head? = some '|' from by rw [rowLine]; rfl]
    simp only [Bool.and_eq_true, decide_eq_true_eq]
    exact ⟨⟨trivial, trivial⟩, hlen⟩

theorem isSepLine_sep (sepInner : List Char) (h1 : sepInner ≠ [])
    (h2 : ∀ c ∈ sepInner, c = '-' ∨ c = ':' ∨ c = ' ') :
    isSepLine ('|' :: (sepInner ++ ['|'])) = true := by
  rw [isSepLine, Bool.and_eq_true]
  refine ⟨?_, ?_⟩
  · have hg : ('|' :: (sepInner ++ ['|'])).getLast? = some '|' := by
      rw [show ('|' :: (sepInner ++ ['|'])) = ('|' :: sepInner) ++ ['|'] from by simp,
        List.getLast?_concat]
    have hlen : ('|' :: (sepInner ++ ['|'])).length ≥ 3 := by
      simp only [List.length_cons, List.length_append, List.length_singleton]
      have : sepInner.length ≥ 1 := List.length_pos.mpr h1
      omega
    rw [isRowLine, hg, List.head?_cons]
    simp only [Bool.and_eq_true, decide_eq_true_eq]
    exact ⟨⟨trivial, trivial⟩, hlen⟩
  · rw [List.all_cons, Bool.and_eq_true]
    refine ⟨by decide, ?_⟩
    rw [List.all_append, Bool.and_eq_true]
    refine ⟨?_, by decide⟩
    rw [List.all_eq_true]
    intro x hx
    rcases h2 x hx with h | h | h <;> (rw [h]; decide)

theorem takeDataLines_eval (rows : List (List (List Char)))
    (hrow : ∀ r ∈ rows, isRowLine (rowLine r) = true ∧ '\n' ∉ rowLine r) :
    ∀ n, rows.length ≤ n →
      takeDataLines n (rows.flatMap (fun r => rowLine r ++ ['\n'])) =
        (rows.map rowLine, []) := by
  induction rows with
  | nil =>
    intro n hn
    rw [List.flatMap_nil]
    cases n <;> rfl
  | cons r rs ih =>
    intro n hn
    match n, hn with
    | m + 1, hn' =>
      have hsh : (r :: rs).flatMap (fun x => rowLine x ++ ['\n']) =
          rowLine r ++ '\n' :: rs.flatMap (fun x => rowLine x ++ ['\n']) := by simp
      rw [hsh]
      have hle : rs.length ≤ m := by simpa using hn'
      simp only [takeDataLines, takeLine_append _ _ (hrow r (List.mem_cons_self r rs)).2,
        (hrow r (List.mem_cons_self r rs)).1, if_true,
        ih (fun x hx => hrow x (List.mem_cons_of_mem r hx)) m hle, List.map_cons]

theorem flatMap_rows_length (rows : List (List (List Char))) :
    rows.length ≤ (rows.flatMap (fun r => rowLine r ++ ['\n'])).length := by
  induction rows with
  | nil => simp
  | cons r rs ih =>
    rw [List.flatMap_cons, List.length_cons, List.length_append, List.length_append]
    simp only [List.length_singleton]
    omega

theorem splitOnChar_first (sep : Char) (c r : List Char) (h : sep ∉ c) :
    splitOnChar sep (c ++ sep :: r) = c :: splitOnChar sep r := by
  induction c with
  | nil => rw [List.nil_append, splitOnChar, if_pos rfl]
  | cons d ds ih =>
    rw [List.cons_append, splitOnChar,
      if_neg (fun hd : d = sep => h (hd ▸ List.mem_cons_self d ds)),
      ih (fun hm => h (List.mem_cons_of_mem d hm))]

theorem splitOnChar_pipe_cells (cells : List (List Char))
    (h : ∀ cell ∈ cells, '|' ∉ cell) :
    splitOnChar '|' (cells.flatMap (fun c => c ++ ['|'])) = cells ++ [[]] := by
  induction cells with
  | nil => rfl
  | cons c cs ih =>
    have hsh : (c :: cs).flatMap (fun x => x ++ ['|']) =
        c ++ '|' :: cs.flatMap (fun x => x ++ ['|']) := by simp
    rw [hsh, splitOnChar_first '|' c _ (h c (List.mem_cons_self c cs)),
      ih (fun cell hc => h cell (List.mem_cons_of_mem c hc))]
    rfl

theorem splitOnChar_rowLine (cells : List (List Char))
    (h : ∀ cell ∈ cells, '|' ∉ cell) :
    splitOnChar '|' (rowLine cells) = [] :: (cells ++ [[]]) := by
  rw [rowLine, splitOnChar, if_pos rfl, splitOnChar_pipe_cells cells h]

theorem joinNl_concat_nil (zs : List (List Char)) :
    joinNl (zs ++ [[]]) = zs.flatMap (fun l => l ++ ['\n']) := by
  induction zs with
  | nil => rfl
  | cons z zs ih =>
    cases zs with
    | nil =>
      rw [show (([z] ++ [[]]) : List (List Char)) = [z, []] from rfl, joinNl_cons₂,
        show joinNl [([] : List Char)] = [] from rfl]
      simp
    | cons z2 zs2 =>
      rw [show (((z :: z2 :: zs2) ++ [[]]) : List (List Char)) =
        z :: (z2 :: (zs2 ++ [[]])) from rfl, joinNl_cons₂,
        show (z2 :: (zs2 ++ [[]]) : List (List Char)) = (z2 :: zs2) ++ [[]] from rfl,
        ih]
      simp

theorem pyStrip_rowLine (cells : List (List Char)) (h : cells ≠ []) :
    pyStrip (rowLine cells) = rowLine cells := by
  have hg := rowLine_getLast cells h
  rw [rowLine] at hg ⊢
  exact pyStrip_eq_self '|' _ (by decide) (fun d hd => by
    rw [hg] at hd
    rw [show d = '|' from Eq.symm (by simpa using hd)]
    decide)

theorem flatMap_congr_mem {α β : Type _} (l : List α) (f g : α → List β)
    (h : ∀ a ∈ l, f a = g a) : l.flatMap f = l.flatMap g := by
  induction l with
  | nil => rfl
  | cons x xs ih =>
    rw [List.flatMap_cons, List.flatMap_cons, h x (List.mem_cons_self x xs),
      ih (fun a ha => h a (List.mem_cons_of_mem x ha))]

theorem tryTable_block (hdr : List (List Char)) (sepInner : List Char)
    (rows : List (List (List Char)))
    (hhdr : hdr ≠ []) (hrows : rows ≠ [])
    (hsep1 : sepInner ≠ []) (hsep2 : ∀ c ∈ sepInner, c = '-' ∨ c = ':' ∨ c = ' ')
    (hhc : ∀ cell ∈ hdr, cell ≠ [] ∧ ∀ ch ∈ cell, ch ≠ '|' ∧ ch ≠ '\n')
    (hrc : ∀ r ∈ rows,
      r ≠ [] ∧ ∀ cell ∈ r, cell ≠ [] ∧ ∀ ch ∈ cell, ch ≠ '|' ∧ ch ≠ '\n') :
    tryTable (tableBlock hdr sepInner rows) =
      some (tableBlock hdr sepInner rows, []) := by
  obtain ⟨r0, rs0, rfl⟩ : ∃ r0 rs0, rows = r0 :: rs0 := by
    cases rows with
    | nil => exact absurd rfl hrows
    | cons r0 rs0 => exact ⟨r0, rs0, rfl⟩
  have hhnl : '\n' ∉ rowLine hdr :=
    rowLine_no_newline hdr (fun cell hc hm => ((hhc cell hc).2 '\n' hm).2 rfl)
  have hsnl : '\n' ∉ ('|' :: (sepInner ++ ['|'])) := by
    intro hm
    rcases List.mem_cons.mp hm with h | h
    · exact absurd h (by decide)
    · rcases List.mem_append.mp h with h | h
      · rcases hsep2 '\n' h with h' | h' | h' <;> exact absurd h' (by decide)
      · rw [List.mem_singleton] at h
        exact absurd h (by decide)
  have hrownl : ∀ r ∈ (r0 :: rs0), isRowLine (rowLine r) = true ∧ '\n' ∉ rowLine r := by
    intro r hr
    refine ⟨isRowLine_rowLine r (hrc r hr).1 (fun cell hc => ((hrc r hr).2 cell hc).1),
      ?_⟩
    exact rowLine_no_newline r
      (fun cell hc hm => (((hrc r hr).2 cell hc).2 '\n' hm).2 rfl)
  have hshape : tableBlock hdr sepInner (r0 :: rs0) =
      rowLine hdr ++ '\n' :: (('|' :: (sepInner ++ ['|'])) ++ '\n' ::
        (r0 :: rs0).flatMap (fun r => rowLine r ++ ['\n'])) := by
    rw [tableBlock]
    simp [List.append_assoc]
  rw [hshape, tryTable, takeLine_append _ _ hhnl, Option.some_bind]
  simp only []
  rw [if_pos (isRowLine_rowLine hdr hhdr (fun cell hc => (hhc cell hc).1)),
    takeLine_append _ _ hsnl, Option.some_bind]
  simp only []
  rw [if_pos (isSepLine_sep sepInner hsep1 hsep2),
    takeDataLines_eval _ hrownl _ (flatMap_rows_length (r0 :: rs0))]
  simp only [List.map_cons]
  rw [show ((rowLine r0 :: rs0.map rowLine).flatMap (fun l => l ++ ['\n'])) =
    (((r0 :: rs0).map rowLine).flatMap (fun l => l ++ ['\n'])) from by
      rw [List.map_cons], List.flatMap_map]
  simp [List.append_assoc]

theorem linesOf_tableBlock (hdr : List (List Char)) (sepInner : List Char)
    (rows : List (List (List Char)))
    (hsep2 : ∀ c ∈ sepInner, c = '-' ∨ c = ':' ∨ c = ' ')
    (hhc : ∀ cell ∈ hdr, cell ≠ [] ∧ ∀ ch ∈ cell, ch ≠ '|' ∧ ch ≠ '\n')
    (hrc : ∀ r ∈ rows,
      r ≠ [] ∧ ∀ cell ∈ r, cell ≠ [] ∧ ∀ ch ∈ cell, ch ≠ '|' ∧ ch ≠ '\n') :
    linesOf (tableBlock hdr sepInner rows) =
      rowLine hdr :: ('|' :: (sepInner ++ ['|'])) :: (rows.map rowLine ++ [[]]) := by
  have hsnl : '\n' ∉ ('|' :: (sepInner ++ ['|'])) := by
    intro hm
    rcases List.mem_cons.mp hm with h | h
    · exact absurd h (by decide)
    · rcases List.mem_append.mp h with h | h
      · rcases hsep2 '\n' h with h' | h' | h' <;> exact absurd h' (by decide)
      · rw [List.mem_singleton] at h
        exact absurd h (by decide)
  have hj : tableBlock hdr sepInner rows =
      joinNl (rowLine hdr :: ('|' :: (sepInner ++ ['|'])) ::
        (rows.map rowLine ++ [[]])) := by
    obtain ⟨m, ms, hm⟩ : ∃ m ms, rows.map rowLine ++ [[]] = m :: ms := by
      cases rows with
      | nil => exact ⟨[], [], rfl⟩
      | cons r rs => exact ⟨rowLine r, rs.map rowLine ++ [[]], by simp⟩
    rw [joinNl_cons₂, hm, joinNl_cons₂, ← hm, joinNl_concat_nil, List.flatMap_map,
      tableBlock]
    simp [List.append_assoc]
  rw [hj, linesOf_joinNl]
  · intro l hl
    rcases List.mem_cons.mp hl with h | h
    · rw [h]
      exact rowLine_no_newline hdr (fun cell hc hm => ((hhc cell hc).2 '\n' hm).2 rfl)
    rcases List.mem_cons.mp h with h | h
    · rw [h]; exact hsnl
    rcases List.mem_append.mp h with h | h
    · rw [List.mem_map] at h
      obtain ⟨r, hr, rfl⟩ := h
      exact rowLine_no_newline r
        (fun cell hc hm => (((hrc r hr).2 cell hc).2 '\n' hm).2 rfl)
    · rw [List.mem_singleton] at h
      rw [h]
      intro hc
      cases hc
  · intro hcon
    cases hcon

theorem convert_table_eval (hdr : List (List Char)) (sepInner : List Char)
    (rows : List (List (List Char)))
    (hsep2 : ∀ c ∈ sepInner, c = '-' ∨ c = ':' ∨ c = ' ')
    (hhc : ∀ cell ∈ hdr, cell ≠ [] ∧ ∀ ch ∈ cell, ch ≠ '|' ∧ ch ≠ '\n')
    (hrc : ∀ r ∈ rows,
      r ≠ [] ∧ ∀ cell ∈ r, cell ≠ [] ∧ ∀ ch ∈ cell, ch ≠ '|' ∧ ch ≠ '\n') :
    convert_table (tableBlock hdr sepInner rows) = tableHtml hdr rows := by
  rw [convert_table, linesOf_tableBlock hdr sepInner rows hsep2 hhc hrc]
  rw [if_neg (by
    simp only [List.length_cons, List.length_append, List.length_map,
      List.length_singleton]
    omega)]
  simp only [List.headI_cons, List.drop_succ_cons, List.drop_zero]
  rw [splitOnChar_rowLine hdr (fun cell hc hm => ((hhc cell hc).2 '|' hm).1 rfl)]
  simp only [List.drop_succ_cons, List.drop_zero, List.dropLast_concat]
  rw [List.flatMap_append, List.flatMap_map, List.flatMap_map]
  have hlast : ([([] : List Char)] : List (List Char)).flatMap
      (fun l => if !(pyStrip l).isEmpty then
          "<tr>".data ++
            (((splitOnChar '|' l).drop 1).dropLast.map pyStrip).flatMap
              (fun c => "<td>".data ++ c ++ "</td>".data) ++ "</tr>\n".data
        else []) = [] := by decide
  rw [hlast, List.append_nil]
  have hrow : ∀ r ∈ rows,
      (if !(pyStrip (rowLine r)).isEmpty then
        "<tr>".data ++
          (((splitOnChar '|' (rowLine r)).drop 1).dropLast.map pyStrip).flatMap
            (fun c => "<td>".data ++ c ++ "</td>".data) ++ "</tr>\n".data
      else []) =
      "<tr>".data ++ (r.map pyStrip).flatMap
        (fun c => "<td>".data ++ c ++ "</td>".data) ++ "</tr>\n".data := by
    intro r hr
    have hne : r ≠ [] := (hrc r hr).1
    have hps : pyStrip (rowLine r) = rowLine r := pyStrip_rowLine r hne
    rw [hps]
    rw [if_pos (by rw [rowLine]; simp)]
    rw [splitOnChar_rowLine r (fun cell hc hm => (((hrc r hr).2 cell hc).2 '|' hm).1 rfl)]
    simp only [List.drop_succ_cons, List.drop_zero, List.dropLast_concat]
  rw [flatMap_congr_mem rows _ _ hrow, tableHtml]
  simp [List.append_assoc, List.flatMap_map]

/-! ### Claim theorems -/

set_option maxHeartbeats 64000000

/-- C1 counterexample: on the input `"# Title\n\nHello **world**."` the
converter emits the heading and the bold text, but the `Hello` line is NOT
wrapped in paragraph markup — the heading line sets the paragraph pass's
`in_block` flag and nothing ever clears it, so the output contains no `<p>`
at all. -/
theorem c1_counterexample :
    convert_markdown_to_html "# Title\n\nHello **world**." =
      "<h1>Title</h1>\n\nHello <strong>world</strong>." ∧
    strContains (convert_markdown_to_html "# Title\n\nHello **world**.") "<p>" = false := by
  constructor
  · decide
  · decide

/-- C1 (amended): for the input `"# Title\n\nHello **world**."` the output
contains `<h1>Title</h1>` and contains `Hello <strong>world</strong>.`, but
the latter is left as a bare line, not wrapped in paragraph markup, because
the heading line set the paragraph pass's block flag. -/
theorem c1_scenario_amended :
    strContains (convert_markdown_to_html "# Title\n\nHello **world**.")
      "<h1>Title</h1>" = true ∧
    strContains (convert_markdown_to_html "# Title\n\nHello **world**.")
      "Hello <strong>world</strong>." = true ∧
    strContains (convert_markdown_to_html "# Title\n\nHello **world**.") "<p>" = false := by
  refine ⟨by decide, by decide, by decide⟩

/-- C2 counterexample: a fenced code block whose content is `**x**` is NOT
preserved character-for-character — the later bold pass rewrites the
already-substituted code-block interior. -/
theorem c2_counterexample :
    convert_markdown_to_html "```\n**x**\n```" =
      "<pre><code><strong>x</strong>\n</code></pre>" ∧
    strContains (convert_markdown_to_html "```\n**x**\n```") "**x**" = false := by
  constructor
  · decide
  · decide

/-- C4 counterexample: the output `<ul><li>a</li></ul>` of the converter on
`"- a"` contains none of the markdown-special characters listed in the claim,
yet a second conversion wraps the list again, so the converter is not
idempotent on it. -/
theorem c4_counterexample :
    noMarkdownSpecial (convert_markdown_to_html "- a").data = true ∧
    convert_markdown_to_html (convert_markdown_to_html "- a") ≠
      convert_markdown_to_html "- a" := by
  constructor
  · decide
  · decide

/-- C4 (amended): the converter is idempotent on its own outputs that contain
no markdown-special characters, no list-item markup `<li>`, and no emoji
characters (the conditions bundled in `noConverterPatterns`). -/
theorem c4_idempotent_amended (m : String)
    (h : noConverterPatterns (convert_markdown_to_html m).data = true) :
    convert_markdown_to_html (convert_markdown_to_html m) =
      convert_markdown_to_html m := by
  have hdata : (convert_markdown_to_html m).data = convertL m.data :=
    convert_markdown_to_html_data m
  rw [hdata] at h
  -- the output is emoji-free, so its final emoji pass did nothing
  have hem : ∀ c ∈ convertL m.data, isEmojiChar c = false := by
    rw [noConverterPatterns] at h
    simp only [Bool.and_eq_true, List.all_eq_true] at h
    intro c hc
    have := h.1.1 c hc
    simp at this
    exact this.2
  have hinner : convertL m.data =
      paragraphsPass (tablesPass (olPass (ulWrapPass (liPass (hrPass (linksPass
        (italPass (boldPass (inlineCodePass (codeBlocksPass (h4Pass (h3Pass
          (h2Pass (h1Pass m.data)))))))))))))) := by
    rw [convertL]
    exact emojiPass_self_of_output_free _ (by rw [← convertL]; exact hem)
  have hmain : convertL (convertL m.data) = convertL m.data := by
    rw [convertL_plain _ h, hinner, paragraphsPass_idem, ← hinner]
  have h1 : convert_markdown_to_html (convert_markdown_to_html m) =
      String.mk (convertL (convert_markdown_to_html m).data) := rfl
  have h2 : convert_markdown_to_html m = String.mk (convertL m.data) := rfl
  rw [h1, hdata, hmain, h2]

/-- C4 witness: a concrete instance of the amended idempotence theorem. -/
theorem c4_idempotent_witness :
    noConverterPatterns (convert_markdown_to_html "hello").data = true ∧
    convert_markdown_to_html (convert_markdown_to_html "hello") =
      convert_markdown_to_html "hello" :=
  ⟨by decide, c4_idempotent_amended "hello" (by decide)⟩

/-- C3: the unordered-list wrapping pass is greedy across the whole document:
whenever the text decomposes as `a ++ "<li>" ++ mid ++ "</li>" ++ b` with no
`<li>` before the shown one and no `</li>` after the shown one, a single
`<ul>`/`</ul>` pair is placed around the whole span from that first `<li>` to
that last `</li>`; in particular three adjacent `- ` lines yield one list
container around three items in order, and two bullet lists separated by
unrelated content are merged into one container. -/
theorem c3_ulwrap_greedy (a mid b : List Char)
    (ha : hasSubstr "<li>".data (a ++ "<li".data) = false)
    (hb : hasSubstr "</li>".data ("/li>".data ++ b) = false) :
    ulWrapPass (a ++ "<li>".data ++ mid ++ "</li>".data ++ b) =
      a ++ "<ul>".data ++ "<li>".data ++ mid ++ "</li>".data ++ "</ul>".data ++ b ∧
    convert_markdown_to_html "- a\n- b\n- c" =
      "<ul><li>a</li>\n<li>b</li>\n<li>c</li></ul>" ∧
    convert_markdown_to_html "- a\n\nx\n\n- b" =
      "<ul><li>a</li>\n\nx\n\n<li>b</li></ul>" := by
  refine ⟨?_, by decide, by decide⟩
  have hshape : a ++ "<li>".data ++ mid ++ "</li>".data ++ b =
      a ++ "<li>".data ++ (mid ++ "</li>".data ++ b) := by simp
  have h1 : splitAtSub "<li>".data (a ++ "<li>".data ++ (mid ++ "</li>".data ++ b)) =
      some (a, mid ++ "</li>".data ++ b) := by
    refine splitAtSub_append _ _ _ (by decide) ?_
    rw [show ("<li>".data : List Char).dropLast = "<li".data from by decide]
    exact ha
  have h2 : splitAtLastSub "</li>".data (mid ++ "</li>".data ++ b) = some (mid, b) := by
    refine splitAtLastSub_append _ _ _ (by decide) ?_
    rw [show ("</li>".data : List Char).drop 1 = "/li>".data from by decide]
    exact hb
  rw [hshape, ulWrapPass]
  simp only [h1, h2]

/-- C3 witness: an instance of the greedy wrapping equation at concrete
surrounding text. -/
theorem c3_ulwrap_witness :
    ulWrapPass ("x".data ++ "<li>".data ++ "a".data ++ "</li>".data ++ "y".data) =
      "x".data ++ "<ul>".data ++ "<li>".data ++ "a".data ++ "</li>".data ++
        "</ul>".data ++ "y".data :=
  (c3_ulwrap_greedy "x".data "a".data "y".data (by decide) (by decide)).1

/-- C9: the converter is a total function of the embedding, and on input in
which no pattern-directed pass finds anything to rewrite it reduces to the
paragraph pass alone, so every input line survives verbatim as a substring of
the output (possibly wrapped in paragraph markup). -/
theorem c9_total_graceful (s : String) (h : noConverterPatterns s.data = true) :
    convert_markdown_to_html s = String.mk (paragraphsPass s.data) ∧
    ∀ l ∈ linesOf s.data, hasSubstr l (convert_markdown_to_html s).data = true := by
  have hmain : convertL s.data = paragraphsPass s.data := convertL_plain s.data h
  constructor
  · have h1 : convert_markdown_to_html s = String.mk (convertL s.data) := rfl
    rw [h1, hmain]
  · intro l hl
    rw [convert_markdown_to_html_data, hmain, hasSubstr_iff_occurs]
    exact line_infix_paragraphsPass s.data l hl

/-- C9 witness: the plain two-line input is passed through with only
paragraph wrapping, lines preserved. -/
theorem c9_witness :
    noConverterPatterns ("hello\nworld".data) = true ∧
    (convert_markdown_to_html "hello\nworld" =
        String.mk (paragraphsPass "hello\nworld".data) ∧
      ∀ l ∈ linesOf "hello\nworld".data,
        hasSubstr l (convert_markdown_to_html "hello\nworld").data = true) :=
  ⟨by decide, c9_total_graceful "hello\nworld" (by decide)⟩

/-! ### The orchestrator -/

theorem processFiles_spec (ex : String → Bool) (content : String → String)
    (l : List String) :
    (processFiles ex content l).1 = l.filter (fun f => !ex f) ∧
    (processFiles ex content l).2.2 = (l.filter (fun f => ex f)).length ∧
    (processFiles ex content l).2.1.map Prod.fst =
      (l.filter (fun f => ex f)).map htmlName := by
  induction l with
  | nil => exact ⟨rfl, rfl, rfl⟩
  | cons f fs ih =>
    rw [processFiles]
    by_cases h : ex f
    · simp only [h, if_true, List.filter_cons, Bool.not_true, if_false]
      refine ⟨ih.1, ?_, ?_⟩
      · simp [ih.2.1]
      · simp [ih.2.2]
    · simp only [h, List.filter_cons, Bool.not_false, if_true, if_false]
      refine ⟨?_, ?_, ?_⟩
      · simp [ih.1]
      · simp [h, ih.2.1]
      · simp [h, ih.2.2]

/-- C5: a configured markdown file that does not exist is reported in the
skip warnings, processing continues (every existing file still produces its
page, in order, followed by the landing page), and the reported page count is
the number of existing files plus one (for the landing page) — it excludes
the missing file. -/
theorem c5_missing_file_skipped (ex : String → Bool) (content : String → String)
    (f : String) (hf : f ∈ md_files) (hex : ex f = false) :
    f ∈ (generate_html_docs ex content).warnings ∧
    (generate_html_docs ex content).reported =
      (md_files.filter (fun g => ex g)).length + 1 ∧
    f ∉ md_files.filter (fun g => ex g) ∧
    (generate_html_docs ex content).pages.map Prod.fst =
      (md_files.filter (fun g => ex g)).map htmlName ++ ["index.html"] := by
  have hs := processFiles_spec ex content md_files
  refine ⟨?_, ?_, ?_, ?_⟩
  · show f ∈ (processFiles ex content md_files).1
    rw [hs.1, List.mem_filter]
    exact ⟨hf, by simp [hex]⟩
  · show (processFiles ex content md_files).2.2 + 1 = _
    rw [hs.2.1]
  · rw [List.mem_filter]
    rintro ⟨-, hex'⟩
    rw [hex] at hex'
    cases hex'
  · show ((processFiles ex content md_files).2.1 ++
        [("index.html", String.mk indexDoc)]).map Prod.fst = _
    rw [List.map_append, hs.2.2]
    rfl

/-- C5 witness: with no file present, the first configured file is warned
about, the reported count is 1 (the landing page alone) and only the landing
page is emitted. -/
theorem c5_witness :
    "README.md" ∈ (generate_html_docs (fun _ => false) (fun _ => "")).warnings ∧
    (generate_html_docs (fun _ => false) (fun _ => "")).reported =
      (md_files.filter (fun _ => false)).length + 1 ∧
    "README.md" ∉ md_files.filter (fun _ => false) ∧
    (generate_html_docs (fun _ => false) (fun _ => "")).pages.map Prod.fst =
      (md_files.filter (fun _ => false)).map htmlName ++ ["index.html"] :=
  c5_missing_file_skipped (fun _ => false) (fun _ => "") "README.md"
    (by decide) rfl

/-- C6: in every generated page, after template substitution the `.md"`
fix-up leaves no `.md"`-suffixed link target (first conjunct, over the whole
page pipeline), and each individual occurrence is rewritten to `.html"` in
place (second conjunct, the decomposition at the first occurrence). -/
theorem c6_md_targets_rewritten :
    (∀ (mdFile markdown : String),
      hasSubstr ".md\"".data (pageFor mdFile markdown) = false) ∧
    (∀ a b : List Char, hasSubstr ".md\"".data (a ++ ".md".data) = false →
      fixupMdLinks (a ++ ".md\"".data ++ b) =
        a ++ ".html\"".data ++ fixupMdLinks b) := by
  constructor
  · intro mdFile markdown
    exact pyReplace_no_mdq _
  · intro a b ha
    exact pyReplace_append_occurrence a b ha

/-- C6 witness: a markdown-authored link target `href="QUICK_START.md"`
inside surrounding text is rewritten to `href="QUICK_START.html"`. -/
theorem c6_witness :
    fixupMdLinks ("<a href=\"QUICK_START".data ++ ".md\"".data ++ ">go</a>".data) =
      "<a href=\"QUICK_START".data ++ ".html\"".data ++ fixupMdLinks ">go</a>".data :=
  c6_md_targets_rewritten.2 "<a href=\"QUICK_START".data ">go</a>".data (by decide)

/-- C10: the `.md"` fix-up of the assembler is a plain global text
replacement over the entire assembled document: the written page is exactly
`pyReplace` of the template-substituted document (first conjunct), the
replacement fires at any occurrence regardless of surrounding markup (second
conjunct, with no restriction to href attributes), and in particular an
occurrence inside an inline code span in visible body text is rewritten
(third conjunct). -/
theorem c10_fixup_global :
    (∀ (mdFile markdown : String),
      pageFor mdFile markdown =
        pyReplace ".md\"".data ".html\"".data
          (substitutedDoc mdFile (convertL markdown.data))) ∧
    (∀ pre post : List Char, hasSubstr ".md\"".data (pre ++ ".md".data) = false →
      fixupMdLinks (pre ++ ".md\"".data ++ post) =
        pre ++ ".html\"".data ++ fixupMdLinks post) ∧
    fixupMdLinks "<code>see notes.md\" here</code>".data =
      "<code>see notes.html\" here</code>".data := by
  refine ⟨fun _ _ => rfl, fun pre post h => pyReplace_append_occurrence pre post h, ?_⟩
  decide

/-- C10 witness: the decomposition conjunct applied to an occurrence inside
plain body text rather than a link attribute. -/
theorem c10_witness :
    fixupMdLinks ("see the file README".data ++ ".md\"".data ++ " for details".data) =
      "see the file README".data ++ ".html\"".data ++
        fixupMdLinks " for details".data :=
  c10_fixup_global.2.1 "see the file README".data " for details".data (by decide)

/-- C8: the page title is the text of the first `<h1>...</h1>` match of the
fragment with all embedded markup tags stripped (first conjunct, for a
fragment decomposed at that first heading), and the fixed fallback `FP-ASM`
is used when the fragment has no `<h1>` at all (second conjunct). -/
theorem c8_title_extraction (a t b : List Char)
    (ha : hasSubstr "<h1>".data (a ++ "<h1".data) = false)
    (ht1 : t ≠ []) (ht2 : '\n' ∉ t)
    (ht3 : hasSubstr "</h1>".data (t ++ "</h1".data) = false) :
    extractTitle (a ++ "<h1>".data ++ t ++ "</h1>".data ++ b) = stripTags t ∧
    ∀ frag : List Char, hasSubstr "<h1>".data frag = false →
      extractTitle frag = "FP-ASM".data := by
  constructor
  · have hsh : a ++ "<h1>".data ++ t ++ "</h1>".data ++ b =
        a ++ ("<h1>".data ++ (t ++ ("</h1>".data ++ b))) := by simp
    rw [hsh, extractTitle, h1Search_append a t b ha ht1 ht2 ht3]
  · intro frag hfrag
    rw [extractTitle, h1Search_none frag hfrag]

/-- C8 witness: a fragment with markup inside its first heading gets that
heading's text, tags stripped, as title; a fragment with no heading gets the
fallback. -/
theorem c8_title_witness :
    extractTitle ("<p>x</p>".data ++ "<h1>".data ++ "My <em>T</em>".data ++
        "</h1>".data ++ "<p>y</p>".data) = stripTags "My <em>T</em>".data ∧
    extractTitle "<h2>No top heading</h2>".data = "FP-ASM".data :=
  ⟨(c8_title_extraction "<p>x</p>".data "My <em>T</em>".data "<p>y</p>".data
      (by decide) (by decide) (by decide) (by decide)).1,
    (c8_title_extraction "<p>x</p>".data "My <em>T</em>".data "<p>y</p>".data
      (by decide) (by decide) (by decide) (by decide)).2
      "<h2>No top heading</h2>".data (by decide)⟩

/-- C2 (amended): the fenced-code-block pass itself places the block's inner
content verbatim inside `<pre><code>...</code></pre>` and discards fence and
language tag, and the full converter preserves this for content made of
inert characters (alphanumerics, spaces, newlines); the original claim's
extension to arbitrary content — backticks, asterisks or link syntax inside
the block — is refuted by the counterexample, because the later inline
passes run over the already-substituted block body. -/
theorem c2_code_block_amended (tag content : List Char)
    (htag : ∀ c ∈ tag, isWordChar c = true)
    (hin : ∀ c ∈ content, inertChar c = true) :
    convert_markdown_to_html
        (String.mk ("```".data ++ (tag ++ ('\n' :: (content ++ "```".data))))) =
      String.mk ("<pre><code>".data ++ content ++ "</code></pre>".data) := by
  have hbt : ∀ c ∈ content, c ≠ btChar := fun c hc =>
    inert_ne c btChar (hin c hc) (by decide)
  have hsrc : ∀ c ∈ ("```".data ++ (tag ++ ('\n' :: (content ++ "```".data)))),
      c = btChar ∨ isWordChar c = true ∨ c = '\n' ∨ inertChar c = true := by
    intro c hc
    rcases List.mem_append.mp hc with hm | hm
    · exact Or.inl ((by decide : ∀ x ∈ ("```".data : List Char), x = btChar) c hm)
    · rcases List.mem_append.mp hm with hm' | hm'
      · exact Or.inr (Or.inl (htag c hm'))
      · rcases List.mem_cons.mp hm' with hm'' | hm''
        · exact Or.inr (Or.inr (Or.inl hm''))
        · rcases List.mem_append.mp hm'' with h3 | h3
          · exact Or.inr (Or.inr (Or.inr (hin c h3)))
          · exact Or.inl ((by decide : ∀ x ∈ ("```".data : List Char), x = btChar) c h3)
  have hnohash : ∀ c ∈ ("```".data ++ (tag ++ ('\n' :: (content ++ "```".data)))),
      c ≠ '#' := by
    intro c hc
    rcases hsrc c hc with h | h | h | h
    · rw [h]; decide
    · exact word_ne c '#' h (by decide)
    · rw [h]; decide
    · exact inert_ne c '#' h (by decide)
  have hlines : ∀ hs : List Char, hs.head? = some '#' →
      ∀ l ∈ linesOf ("```".data ++ (tag ++ ('\n' :: (content ++ "```".data)))),
        headerMatches hs l = false := fun hs hh l hl =>
    headerMatches_false_of_ne hs l hh
      (fun c hc => hnohash c (mem_of_mem_splitOnChar '\n' _ l c hl hc))
  have htch : ∀ c ∈ ("<pre><code>".data ++ content ++ "</code></pre>".data),
      c ∈ ("<pre><code>".data : List Char) ∨ inertChar c = true ∨
        c ∈ ("</code></pre>".data : List Char) := by
    intro c hc
    rcases List.mem_append.mp hc with hm | hm
    · rcases List.mem_append.mp hm with hm' | hm'
      · exact Or.inl hm'
      · exact Or.inr (Or.inl (hin c hm'))
    · exact Or.inr (Or.inr hm)
  have hne : ∀ x : Char, inertChar x = false →
      (∀ y ∈ ("<pre><code>".data : List Char), y ≠ x) →
      (∀ y ∈ ("</code></pre>".data : List Char), y ≠ x) →
      ∀ c ∈ ("<pre><code>".data ++ content ++ "</code></pre>".data), c ≠ x := by
    intro x hx hpa hpb c hc
    rcases htch c hc with h | h | h
    · exact hpa c h
    · exact inert_ne c x h hx
    · exact hpb c h
  have hlineQ : ∀ x : Char, inertChar x = false →
      (∀ y ∈ ("<pre><code>".data : List Char), y ≠ x) →
      (∀ y ∈ ("</code></pre>".data : List Char), y ≠ x) →
      ∀ l ∈ linesOf ("<pre><code>".data ++ content ++ "</code></pre>".data),
        ∀ c ∈ l, c ≠ x := fun x hx hpa hpb l hl c hc =>
    hne x hx hpa hpb c (mem_of_mem_splitOnChar '\n' _ l c hl hc)
  have hli : hasSubstr "<li>".data
      ("<pre><code>".data ++ content ++ "</code></pre>".data) = false := by
    apply hasSubstr_li_of_chain
    rw [List.chain'_append]
    refine ⟨?_, by rw [List.chain'_iff_get]; decide, ?_⟩
    · rw [List.chain'_append]
      refine ⟨by rw [List.chain'_iff_get]; decide, chain_left_total content
        (fun x hx y => Or.inl (inert_ne x '<' (hin x hx) (by decide))), ?_⟩
      intro x hx y hy
      have hx2 : x = '>' := by
        rw [show ("<pre><code>".data : List Char).getLast? = some '>' from by decide]
          at hx
        exact Eq.symm (by simpa using hx)
      exact Or.inl (by rw [hx2]; decide)
    · intro x hx y hy
      have hy2 : y = '<' := by
        rw [show ("</code></pre>".data : List Char).head? = some '<' from by decide]
          at hy
        exact Eq.symm (by simpa using hy)
      exact Or.inr (by rw [hy2]; decide)
  have h1 : convert_markdown_to_html
      (String.mk ("```".data ++ (tag ++ ('\n' :: (content ++ "```".data))))) =
      String.mk (convertL ("```".data ++ (tag ++ ('\n' :: (content ++ "```".data))))) :=
    rfl
  rw [h1]
  apply congrArg String.mk
  have e1 : h1Pass ("```".data ++ (tag ++ ('\n' :: (content ++ "```".data)))) = _ :=
    h1Pass_id _ (hlines "# ".data rfl)
  have e2 : h2Pass ("```".data ++ (tag ++ ('\n' :: (content ++ "```".data)))) = _ :=
    h2Pass_id _ (hlines "## ".data rfl)
  have e3 : h3Pass ("```".data ++ (tag ++ ('\n' :: (content ++ "```".data)))) = _ :=
    h3Pass_id _ (hlines "### ".data rfl)
  have e4 : h4Pass ("```".data ++ (tag ++ ('\n' :: (content ++ "```".data)))) = _ :=
    h4Pass_id _ (hlines "#### ".data rfl)
  have e5 : codeBlocksPass ("```".data ++ (tag ++ ('\n' :: (content ++ "```".data)))) =
      "<pre><code>".data ++ content ++ "</code></pre>".data :=
    codeBlocks_fence tag content htag hbt
  have e6 : inlineCodePass ("<pre><code>".data ++ content ++ "</code></pre>".data) =
      "<pre><code>".data ++ content ++ "</code></pre>".data :=
    inlineCodeGo_id _ (hne btChar (by decide) (by decide) (by decide)) _
  have e7 : boldPass ("<pre><code>".data ++ content ++ "</code></pre>".data) =
      "<pre><code>".data ++ content ++ "</code></pre>".data :=
    boldGo_id _ (hne '*' (by decide) (by decide) (by decide)) _
  have e8 : italPass ("<pre><code>".data ++ content ++ "</code></pre>".data) =
      "<pre><code>".data ++ content ++ "</code></pre>".data :=
    italGo_id _ (hne '*' (by decide) (by decide) (by decide)) _
  have e9 : linksPass ("<pre><code>".data ++ content ++ "</code></pre>".data) =
      "<pre><code>".data ++ content ++ "</code></pre>".data :=
    linkGo_id _ (hne '[' (by decide) (by decide) (by decide)) _
  have e10 : hrPass ("<pre><code>".data ++ content ++ "</code></pre>".data) =
      "<pre><code>".data ++ content ++ "</code></pre>".data :=
    hrPass_id _ (fun l hl =>
      hrMatches_false_of_ne l (hlineQ '-' (by decide) (by decide) (by decide) l hl))
  have e11 : liPass ("<pre><code>".data ++ content ++ "</code></pre>".data) =
      "<pre><code>".data ++ content ++ "</code></pre>".data :=
    liPass_id _ (fun l hl =>
      liMatches_false_of_ne l (hlineQ '-' (by decide) (by decide) (by decide) l hl))
  have e12 : ulWrapPass ("<pre><code>".data ++ content ++ "</code></pre>".data) =
      "<pre><code>".data ++ content ++ "</code></pre>".data :=
    ulWrapPass_id _ hli
  have e13 : olPass ("<pre><code>".data ++ content ++ "</code></pre>".data) =
      "<pre><code>".data ++ content ++ "</code></pre>".data :=
    olPass_id _ (fun l hl =>
      olMatches_false_of_ne l (hlineQ '.' (by decide) (by decide) (by decide) l hl))
  have e14 : tablesPass ("<pre><code>".data ++ content ++ "</code></pre>".data) =
      "<pre><code>".data ++ content ++ "</code></pre>".data :=
    tableGo_id _ (hne '|' (by decide) (by decide) (by decide)) _
  have e15 : paragraphsPass ("<pre><code>".data ++ content ++ "</code></pre>".data) =
      "<pre><code>".data ++ content ++ "</code></pre>".data :=
    paragraphs_pre_code content hin
  rw [convertL, e1, e2, e3, e4, e5, e6, e7, e8, e9, e10, e11, e12, e13, e14, e15]
  apply emojiPass_id
  intro c hc
  rcases htch c hc with h | h | h
  · exact (by decide : ∀ x ∈ ("<pre><code>".data : List Char),
      isEmojiChar x = false) c h
  · exact inert_not_emoji c h
  · exact (by decide : ∀ x ∈ ("</code></pre>".data : List Char),
      isEmojiChar x = false) c h

/-- C2 witness: a `py`-tagged fence around the inert body `print 1` converts
to exactly that body inside code markup. -/
theorem c2_code_block_witness :
    convert_markdown_to_html
        (String.mk ("```".data ++
          ("py".data ++ ('\n' :: ("print 1\n".data ++ "```".data))))) =
      String.mk ("<pre><code>".data ++ "print 1\n".data ++ "</code></pre>".data) :=
  c2_code_block_amended "py".data "print 1\n".data (by decide) (by decide)

/-- C7: for every well-formed pipe-delimited table block — a header row, a
dash/colon separator row and one or more newline-terminated data rows with a
consistent column count — the table pass emits a `<table>` with exactly one
`<th>` row for the header followed by one `<td>` row per data row, every
cell stripped of surrounding whitespace and the separator row dropped
(first conjunct); and the full converter realises this on a concrete table
(second conjunct). -/
theorem c7_table_conversion (hdr : List (List Char)) (sepInner : List Char)
    (rows : List (List (List Char)))
    (hhdr : hdr ≠ []) (hrows : rows ≠ [])
    (hsep1 : sepInner ≠ []) (hsep2 : ∀ c ∈ sepInner, c = '-' ∨ c = ':' ∨ c = ' ')
    (hhc : ∀ cell ∈ hdr, cell ≠ [] ∧ ∀ ch ∈ cell, ch ≠ '|' ∧ ch ≠ '\n')
    (hrc : ∀ r ∈ rows,
      r ≠ [] ∧ ∀ cell ∈ r, cell ≠ [] ∧ ∀ ch ∈ cell, ch ≠ '|' ∧ ch ≠ '\n')
    (hcol : ∀ r ∈ rows, r.length = hdr.length) :
    tablesPass (tableBlock hdr sepInner rows) = tableHtml hdr rows ∧
    convert_markdown_to_html "| A | B |\n|---|---|\n| 1 | 2 |\n" =
      "<table>\n<tr><th>A</th><th>B</th></tr>\n<tr><td>1</td><td>2</td></tr>\n</table>" := by
  constructor
  · have htry := tryTable_block hdr sepInner rows hhdr hrows hsep1 hsep2 hhc hrc
    have hconv := convert_table_eval hdr sepInner rows hsep2 hhc hrc
    have hcons : tableBlock hdr sepInner rows =
        '|' :: ((hdr.flatMap (fun c => c ++ ['|'])) ++ '\n' ::
          (('|' :: (sepInner ++ ['|'])) ++ '\n' ::
            rows.flatMap (fun r => rowLine r ++ ['\n']))) := by
      rw [tableBlock, rowLine]
      simp [List.append_assoc]
    rw [tablesPass, hcons]
    rw [List.length_cons]
    rw [hcons] at htry hconv
    rw [tableGo, htry]
    simp only []
    rw [hconv, tableGo_nil, List.append_nil]
  · have h1 : convert_markdown_to_html "| A | B |\n|---|---|\n| 1 | 2 |\n" =
        String.mk (convertL ("| A | B |\n|---|---|\n| 1 | 2 |\n" : String).data) := rfl
    rw [h1]
    exact congrArg String.mk (by decide)

/-- C7 witness: the two-column table with header cells ` A `, ` B ` and one
data row ` 1 `, ` 2 ` is wrapped and trimmed as claimed. -/
theorem c7_table_witness :
    tablesPass (tableBlock [" A ".data, " B ".data] "---".data
        [[" 1 ".data, " 2 ".data]]) =
      tableHtml [" A ".data, " B ".data] [[" 1 ".data, " 2 ".data]] ∧
    convert_markdown_to_html "| A | B |\n|---|---|\n| 1 | 2 |\n" =
      "<table>\n<tr><th>A</th><th>B</th></tr>\n<tr><td>1</td><td>2</td></tr>\n</table>" :=
  c7_table_conversion [" A ".data, " B ".data] "---".data [[" 1 ".data, " 2 ".data]]
    (by decide) (by decide) (by decide) (by decide) (by decide) (by decide) (by decide)
